import Mathlib

/-!
Shallow embedding of the response-normalization and conversation-state core of
the RAICES generative-AI backend (Backend/ia/llm_response_manager.py,
Backend/ia/conversation_manager.py, Backend/models/ai_requirement_model.py,
Backend/utils/format.py), together with theorems settling the specification
claims about it.

Texts are modelled as lists of characters (`Str`).  Python string operations
used by the code (`split(sep)`, `split(sep, 1)`, `strip()`, `count(sep)`,
`startswith`, `lower()`, `in`) are given executable Lean counterparts with the
same semantics, and the regular expressions appearing in the code are modelled
by explicit scanning functions reproducing the leftmost-match semantics of
Python's `re` module on the concrete patterns involved.
-/

/-- Texts are lists of characters. -/
abbrev Str := List Char

/-- Coerce a Lean string literal to the `Str` model. -/
def lit (s : String) : Str := s.data

/-- Python whitespace characters (the ASCII set stripped by `str.strip()` and
matched by the regex class in the patterns the code uses). -/
def isSp (c : Char) : Bool :=
  c = ' ' || c = '\t' || c = '\n' || c = '\x0d' || c = '\x0b' || c = '\x0c'

/-- Drop leading whitespace (left part of Python `str.strip()`). -/
def stripL (s : Str) : Str := s.dropWhile isSp

/-- Drop trailing whitespace (right part of Python `str.strip()`). -/
def stripR (s : Str) : Str := (s.reverse.dropWhile isSp).reverse

/-- Python `str.strip()`. -/
def pyStrip (s : Str) : Str := stripR (stripL s)

/-- Python `str.lower()` (ASCII case folding; the texts the code lowers are
compared against ASCII-cased keywords, and pre-composed accented letters are
already lower-case in every literal involved). -/
def pyLower (s : Str) : Str := s.map Char.toLower

/-- Split at the first occurrence of `sep` (Python `s.split(sep, 1)`):
`some (before, after)` when `sep` occurs, `none` otherwise. -/
def splitOnce (sep : Str) : Str → Option (Str × Str)
  | [] => if sep.isEmpty then some ([], []) else none
  | c :: rest =>
    if sep.isPrefixOf (c :: rest) then some ([], (c :: rest).drop sep.length)
    else (splitOnce sep rest).map (fun p => (c :: p.1, p.2))

/-- Python `sep in s` (substring containment). -/
def containsSub (sep s : Str) : Bool := (splitOnce sep s).isSome

/-- Fuelled worker for Python `s.split(sep)` (all occurrences). -/
def splitAllF (sep : Str) : Nat → Str → List Str
  | 0, s => [s]
  | fuel + 1, s =>
    match splitOnce sep s with
    | none => [s]
    | some (a, b) => a :: splitAllF sep fuel b

/-- Python `s.split(sep)` for a non-empty separator. -/
def pySplit (sep s : Str) : List Str := splitAllF sep (s.length + 1) s

/-- Fuelled worker for Python `s.count(sep)` (non-overlapping count). -/
def pyCountF (sep : Str) : Nat → Str → Nat
  | 0, _ => 0
  | fuel + 1, s =>
    match splitOnce sep s with
    | none => 0
    | some (_, b) => pyCountF sep fuel b + 1

/-- Python `s.count(sep)` for a non-empty separator. -/
def pyCount (sep s : Str) : Nat := pyCountF sep (s.length + 1) s

/-- First index at which `pat` occurs in a text (specification-side companion
of `splitOnce`, used to state claims in terms of positions). -/
def subIdx? (pat : Str) : Str → Option Nat
  | [] => if pat.isEmpty then some 0 else none
  | c :: rest =>
    if pat.isPrefixOf (c :: rest) then some 0
    else (subIdx? pat rest).map (· + 1)

/-- Index of the first occurrence of a character. -/
def charIdx? (c : Char) (s : Str) : Option Nat := s.findIdx? (fun x => x == c)

/-- Index of the last occurrence of a character. -/
def lastCharIdx? (c : Char) (s : Str) : Option Nat :=
  (s.reverse.findIdx? (fun x => x == c)).map (fun k => s.length - 1 - k)

/-- The decimal digit characters (`9` for any larger value, which the digit
computation never produces). -/
def dchar (d : Nat) : Char :=
  if d = 0 then '0' else if d = 1 then '1' else if d = 2 then '2'
  else if d = 3 then '3' else if d = 4 then '4' else if d = 5 then '5'
  else if d = 6 then '6' else if d = 7 then '7' else if d = 8 then '8' else '9'

/-- Numeric value of a decimal digit character. -/
def dval (c : Char) : Nat := c.toNat - 48

/-- Decimal value of a digit string (leading zeros allowed). -/
def decodeNat (s : Str) : Nat := s.foldl (fun a c => a * 10 + dval c) 0

/-- Fuelled decimal digits of a natural number (most significant first). -/
def digitsF : Nat → Nat → Str
  | 0, _ => []
  | fuel + 1, n => if n < 10 then [dchar n] else digitsF fuel (n / 10) ++ [dchar (n % 10)]

/-- Decimal digits of a natural number, as produced by Python `str`/`format`. -/
def digitsOf (n : Nat) : Str := digitsF (n + 1) n

/-- Left-pad a digit string with zeros to width `w` (Python `{:0wd}` on a
non-negative value). -/
def padTo (w : Nat) (s : Str) : Str := List.replicate (w - s.length) '0' ++ s

/-- Python `f"{n:03d}"` for a natural number. -/
def pad3 (n : Nat) : Str := padTo 3 (digitsOf n)

/-- Python `f"{n:03d}"` for an integer: the minus sign counts toward the
width, so `-5` renders as `-05`. -/
def padInt3 (n : Int) : Str :=
  if n < 0 then '-' :: padTo 2 (digitsOf n.natAbs) else padTo 3 (digitsOf n.toNat)

/-- All-decimal-digit test for a parsed integer body. -/
def allDigits (s : Str) : Bool := s.all Char.isDigit

/-- Python `int(s)` on a string: surrounding whitespace, an optional sign and
a non-empty digit body (underscore separators are not exercised by any input
considered here). -/
def pyIntParse? (s : Str) : Option Int :=
  match pyStrip s with
  | [] => none
  | c :: rest =>
    if c = '+' then
      if rest ≠ [] ∧ allDigits rest then some (Int.ofNat (decodeNat rest)) else none
    else if c = '-' then
      if rest ≠ [] ∧ allDigits rest then some (-(Int.ofNat (decodeNat rest))) else none
    else
      if allDigits (c :: rest) then some (Int.ofNat (decodeNat (c :: rest))) else none

/-- `re.search(r'\d+', s)`: the first maximal run of digits, if any. -/
def firstDigitRun? : Str → Option Str
  | [] => none
  | c :: rest =>
    if c.isDigit then some (c :: rest.takeWhile Char.isDigit) else firstDigitRun? rest

/-- A generated item: the dictionary fields the normalization layer reads or
writes.  `id` and `category` are `none` when the key is absent; `title`
stands for the payload fields the layer copies untouched. -/
structure Item where
  id : Option Str
  category : Option Str
  title : Str
deriving DecidableEq

/-- The numeric part `_format_requirements` extracts from a requirement
(`ai_requirement_model.py` lines 40-49): `int(raw_id)` when it parses,
otherwise the first digit run of `str(raw_id)` (`str(None) = "None"` has no
digits), otherwise `0`. -/
def reqNumStr (s : Str) : Int :=
  match pyIntParse? s with
  | some n => n
  | none =>
    match firstDigitRun? s with
    | some run => Int.ofNat (decodeNat run)
    | none => 0

/-- The numeric part for a whole item (`id` absent: `int(None)` raises and
`str(None) = "None"` has no digits, so the value is `0`). -/
def reqNum (r : Item) : Int :=
  match r.id with
  | none => 0
  | some s => reqNumStr s

/-- The category test of `_format_requirements` (lines 52-53): the lower-cased
`category` field (defaulting to the empty string) contains `"no funcional"`
or `"nf"`. -/
def isNonFunctional (r : Item) : Bool :=
  let cat := pyLower (r.category.getD [])
  containsSub (lit "no funcional") cat || containsSub (lit "nf") cat

/-- The new identifier `_format_requirements` assigns to one requirement. -/
def reqNewId (r : Item) : Str :=
  if isNonFunctional r then lit "REQ-NF-" ++ padInt3 (reqNum r)
  else lit "REQ-" ++ padInt3 (reqNum r)

/-- `RequirementResponse._format_requirements`
(`ai_requirement_model.py` lines 31-58). -/
def format_requirements (reqs : List Item) : List Item :=
  reqs.map (fun r =>
    if isNonFunctional r then {r with id := some (lit "REQ-NF-" ++ padInt3 (reqNum r))}
    else {r with id := some (lit "REQ-" ++ padInt3 (reqNum r))})

/-- `Formats.fix_content_ids` (`utils/format.py` lines 74-88). -/
def fix_content_ids (content : List Item) (ty : Str) : List Item :=
  content.enum.map (fun p =>
    if ty = lit "epic" then {p.2 with id := some (lit "EPIC-" ++ pad3 (p.1 + 1))}
    else {p.2 with id := some (lit "US-" ++ pad3 (p.1 + 1))})

/-- One element of a parsed `"content"` JSON array: a dictionary, or any
non-dictionary value (skipped by the merge loop). -/
inductive Cell where
  | dict (item : Item)
  | other
deriving DecidableEq

/-- Parse result of one input to `merge_responses`: `contentList` is the
`"content"` entry when it is a JSON list (`none` when the JSON fails to parse,
the key is absent or the value is not a list, all of which the code collapses
to the empty item list), and `query` is the `"query"` entry (defaulting to
the empty string).  `json.loads` itself is Python's library JSON parser; it
is modelled by these already-parsed dictionaries. -/
structure ParsedResp where
  contentList : Option (List Cell)
  query : Str
deriving DecidableEq

/-- The combined result of `merge_responses` (its `status` is the fixed
generated value and its `missing_info`/`metadata` fields are always `None`,
so only the varying fields are carried). -/
structure MergedResp where
  status : Str
  query : Str
  funcionales : List Item
  no_funcionales : List Item
deriving DecidableEq

/-- The bucketing loop of `merge_responses` (`utils/format.py` lines 35-50):
skip non-dictionaries, skip falsy or already-seen ids, then bucket by the
`REQ-NF-` id prefix, overwriting the `category` field. -/
def mergeLoop : List Cell → List Str → List Item → List Item → List Item × List Item
  | [], _, fs, ns => (fs, ns)
  | Cell.other :: rest, seen, fs, ns => mergeLoop rest seen fs ns
  | Cell.dict it :: rest, seen, fs, ns =>
    match it.id with
    | none => mergeLoop rest seen fs ns
    | some i =>
      if i = [] ∨ seen.contains i then mergeLoop rest seen fs ns
      else if (lit "REQ-NF-").isPrefixOf i then
        mergeLoop rest (i :: seen) fs (ns ++ [{it with category := some (lit "No Funcional")}])
      else
        mergeLoop rest (i :: seen) (fs ++ [{it with category := some (lit "Funcional")}]) ns

/-- `Formats.merge_responses` (`utils/format.py` lines 11-64), on parsed
inputs; the timestamp field is wall-clock glue and is not modelled. -/
def merge_responses (f nf : ParsedResp) : MergedResp :=
  let items := f.contentList.getD [] ++ nf.contentList.getD []
  let p := mergeLoop items [] [] []
  { status := lit "REQUERIMIENTOS_GENERADOS",
    query := if f.query ≠ [] then f.query else nf.query,
    funcionales := p.1,
    no_funcionales := p.2 }

/-- One conversation turn as stored in memory by `ConversationManager`. -/
structure ConvEntry where
  query : Str
  response : Str
  timestamp : Str
deriving DecidableEq

/-- The sentinel counted by `save_conversation_history`. -/
def marker : Str := lit "--- Fin de respuesta ---"

/-- The block separator `load` splits on (sentinel plus blank line). -/
def delim : Str := marker ++ lit "\n\n"

/-- The query field label. -/
def pregLbl : Str := lit "Pregunta: "

/-- The response field label. -/
def respLbl : Str := lit "Respuesta: "

/-- The double-newline field boundary. -/
def nnl : Str := lit "\n\n"

/-- The text block `save_conversation_history` writes for one turn
(`conversation_manager.py` lines 183-186). -/
def renderEntry (e : ConvEntry) : Str :=
  lit "Timestamp: " ++ e.timestamp ++ lit "\nPregunta: " ++ e.query ++
    lit "\n\nRespuesta: " ++ e.response ++ lit "\n" ++ delim

/-- The part of a written turn block before the block separator. -/
def entryBody (e : ConvEntry) : Str :=
  lit "Timestamp: " ++ e.timestamp ++ lit "\nPregunta: " ++ e.query ++
    lit "\n\nRespuesta: " ++ e.response ++ lit "\n"

/-- `ConversationManager.save_conversation_history`
(`conversation_manager.py` lines 144-191) as a file transformer: the turns
not yet covered by the sentinel count of the existing content are appended. -/
def save_conversation_history (history : List ConvEntry) (file : Str) : Str :=
  file ++ ((history.drop (pyCount marker file)).map renderEntry).flatten

/-- `ConversationManager._parse_conversation_entry`
(`conversation_manager.py` lines 241-271). -/
def parse_conversation_entry (entry : Str) : Option ConvEntry :=
  if pyStrip entry = [] then none
  else
    match splitOnce pregLbl entry with
    | none => none
    | some (_, tq) =>
      match splitOnce nnl tq with
      | none => none
      | some (q, rest) =>
        match splitOnce respLbl rest with
        | none => none
        | some (_, rr) => some ⟨q, pyStrip rr, lit "Imported"⟩

/-- `ConversationManager._add_unique_entry_to_history`
(`conversation_manager.py` lines 273-282): skip entries whose query is
already present. -/
def add_unique_entry_to_history (hist : List ConvEntry) (e : ConvEntry) : List ConvEntry :=
  if hist.any (fun x => x.query == e.query) then hist else hist ++ [e]

/-- `ConversationManager._load_single_conversation_history`
(`conversation_manager.py` lines 213-239) for a session that starts with an
empty in-memory history. -/
def load_single_conversation_history (content : Str) : List ConvEntry :=
  (pySplit delim content).foldl
    (fun hist ent =>
      match parse_conversation_entry ent with
      | none => hist
      | some e => add_unique_entry_to_history hist e)
    []

/-- The opening token of a fenced JSON block. -/
def fenceOpen : Str := lit "```json"

/-- A code-fence token. -/
def fence3 : Str := lit "```"

/-- The opening-brace character. -/
def lbrace : Char := Char.ofNat 123

/-- The closing-brace character. -/
def rbrace : Char := Char.ofNat 125

/-- The error raised when no JSON structure is found. -/
inductive ExtractErr where
  | noJsonFound
deriving DecidableEq

/-- The second pattern of `_extract_json_from_response`
(`re.search(r'({.*})', raw, re.DOTALL)`): the span from the first opening
brace to the last closing brace after it, found by locating the last closing
brace from the reversed remainder. -/
def braceExtract (raw : Str) : Except ExtractErr Str :=
  match splitOnce [lbrace] raw with
  | none => Except.error ExtractErr.noJsonFound
  | some (_, rest) =>
    match splitOnce [rbrace] rest.reverse with
    | none => Except.error ExtractErr.noJsonFound
    | some (_, rr) => Except.ok (lbrace :: (rr.reverse ++ [rbrace]))

/-- `LLMResponseProcessor._extract_json_from_response`
(`llm_response_manager.py` lines 143-159).  The first pattern
`` re.search(r'```json\s*(.*?)\s*```', raw, re.DOTALL) `` matches at the
first fence opening iff some closing fence follows it (a later fence opening
would itself supply a closing token), and its lazy group captures the text up
to the first closing fence with surrounding whitespace stripped. -/
def extract_json_from_response (raw : Str) : Except ExtractErr Str :=
  match splitOnce fenceOpen raw with
  | some (_, rest) =>
    match splitOnce fence3 rest with
    | some (inner, _) => Except.ok (pyStrip inner)
    | none => braceExtract raw
  | none => braceExtract raw

/-- The `content` field of a normalized response: free text or an item list. -/
inductive ContentV where
  | str (s : Str)
  | items (l : List Item)
deriving DecidableEq

/-- The dictionary `json.loads` yields on the JSON path of
`process_llm_response`, restricted to the keys the code reads (`status`,
`content`, `missing_info`; `metadata` is read into `complete_data` but
`standardize_output` never forwards it).  `json.loads` itself is Python's
library parser and is passed in abstractly where needed. -/
structure ParsedLLM where
  status : Option Str
  content : Option ContentV
  missing_info : Option (List Str)
deriving DecidableEq

/-- The normalized response object finally serialized by
`RequirementResponse.format_response` (its `metadata` field is always `None`
on these paths). -/
structure FinalResp where
  status : Str
  query : Str
  content : ContentV
  missing_info : Option (List Str)
deriving DecidableEq

/-- `LLMResponseProcessor.standardize_output`
(`llm_response_manager.py` lines 58-89), composed with
`RequirementResponse.format_response`: the output-type keyword selects the
status (defaulting to the general status), a falsy or absent missing-info
value becomes `None`, and list content is reformatted by
`_format_requirements`. -/
def standardize_output (rawResponse : ContentV) (outputType : Str)
    (missingInfo : Option (List Str)) (query : Str) : FinalResp :=
  let st :=
    if outputType = lit "requirements" then lit "REQUERIMIENTOS_GENERADOS"
    else if outputType = lit "missing_info" then lit "INFORMACION_INSUFICIENTE"
    else if outputType = lit "error" then lit "ERROR_PROCESAMIENTO"
    else lit "RESPUESTA_GENERAL"
  let mi :=
    match missingInfo with
    | some l => if l = [] then none else some l
    | none => none
  let ct :=
    match rawResponse with
    | ContentV.items l => ContentV.items (format_requirements l)
    | ContentV.str s => ContentV.str s
  ⟨st, query, ct, mi⟩

/-- `LLMResponseProcessor._determine_response_status`
(`llm_response_manager.py` lines 187-207).  `none` models the `TypeError`
raised by `content.lower()` when the content is a list (caught by the
caller's `except`, which falls back to manual processing). -/
def determine_response_status (sd : ParsedLLM) (content : ContentV) : Option Str :=
  match sd.status with
  | some st => some st
  | none =>
    match content with
    | ContentV.items _ => none
    | ContentV.str s =>
      let L := pyLower s
      some
        (if containsSub (lit "información insuficiente") L ||
            containsSub (lit "necesito más información") L then lit "INFORMACION_INSUFICIENTE"
         else if containsSub (lit "error") L then lit "ERROR_PROCESAMIENTO"
         else if containsSub (lit "requerimiento") L ||
            containsSub (lit "requisito") L then lit "REQUERIMIENTOS_GENERADOS"
         else lit "RESPUESTA_GENERAL")

/-- `LLMResponseProcessor._process_json_response`
(`llm_response_manager.py` lines 161-185): note the determined status is
lower-cased before the `outputs` lookup in `standardize_output`, and
`.replace("_", "_")` is the identity. -/
def process_json_response (sd : ParsedLLM) (rawAnswer query : Str) : Option FinalResp :=
  let content := sd.content.getD (ContentV.str rawAnswer)
  (determine_response_status sd content).map (fun st =>
    standardize_output content (pyLower st) sd.missing_info query)

/-- Scan for the first `información`/`detalles` keyword; `some` returns the
remainder after the keyword. -/
def findBKw : Str → Option Str
  | [] => none
  | c :: rest =>
    if (lit "información").isPrefixOf (c :: rest) then
      some ((c :: rest).drop (lit "información").length)
    else if (lit "detalles").isPrefixOf (c :: rest) then
      some ((c :: rest).drop (lit "detalles").length)
    else findBKw rest

/-- The lazy capture group of the pattern
`(?:necesito|falta)(?:.*?)(?:información|detalles)(.*?)(?:$|(?:para generar))`
runs from after the information keyword to the first `para generar`
occurrence, or to the end of the text when there is none. -/
def capEnd (rem : Str) : Str :=
  match splitOnce (lit "para generar") rem with
  | some (cap, _) => cap
  | none => rem

/-- Leftmost-match search for the missing-info pattern above: the match
starts at the first `necesito`/`falta` keyword that has an
`información`/`detalles` keyword after it. -/
def missingCapture : Str → Option Str
  | [] => none
  | c :: rest =>
    if (lit "necesito").isPrefixOf (c :: rest) then
      match findBKw ((c :: rest).drop (lit "necesito").length) with
      | some rem => some (capEnd rem)
      | none => missingCapture rest
    else if (lit "falta").isPrefixOf (c :: rest) then
      match findBKw ((c :: rest).drop (lit "falta").length) with
      | some rem => some (capEnd rem)
      | none => missingCapture rest
    else missingCapture rest

/-- The bullet-marker alternative `(?:\d+\.|\*|\-)`: a digit run must be
followed by a period (backtracking inside the run cannot help, since every
shorter run still ends at a digit); `*` and `-` consume one character. -/
def bulletMark : Str → Option Str
  | [] => none
  | c :: rest =>
    if c.isDigit then
      match ((c :: rest).drop ((c :: rest).takeWhile Char.isDigit).length) with
      | '.' :: tail => some tail
      | _ => none
    else if c = '*' then some rest
    else if c = '-' then some rest
    else none

/-- Index of the last non-newline character of an all-whitespace run. -/
def lastNonNl (ws : Str) : Option Nat :=
  (ws.reverse.findIdx? (fun x => x != '\n')).map (fun k => ws.length - 1 - k)

/-- Close one bullet item: the lazy `(.+?)(?:\n|$)` captures up to the first
newline (which the match then consumes) or to the end of the text. -/
def mkCap (u : Str) : Str × Str :=
  let cap := u.takeWhile (fun x => x != '\n')
  (cap, (u.drop cap.length).drop 1)

/-- The tail `\s*(.+?)(?:\n|$)` of the bullet pattern: the greedy whitespace
run backtracks until the capture can start with a character that is not a
newline (so a match inside a trailing whitespace run captures its last
non-newline character). -/
def capTry (w : Str) : Option (Str × Str) :=
  let k := (w.takeWhile isSp).length
  if w.drop k ≠ [] then some (mkCap (w.drop k))
  else
    match lastNonNl (w.takeWhile isSp) with
    | none => none
    | some j => some (mkCap (w.drop j))

/-- Try the bullet pattern with the anchor already consumed: leading
whitespace, a bullet marker, then the capture tail. -/
def bulletTry (u : Str) : Option (Str × Str) :=
  match bulletMark (u.drop (u.takeWhile isSp).length) with
  | none => none
  | some v2 => capTry v2

/-- Fuelled scan of `re.findall(r'(?:^|\n)\s*(?:\d+\.|\*|\-)\s*(.+?)(?:\n|$)', s)`:
the `^` anchor only applies at the very start of the text, the `\n`
alternative consumes its newline, and scanning resumes after each match. -/
def bulletFindallF : Nat → Bool → Str → List Str
  | 0, _, _ => []
  | _ + 1, _, [] => []
  | fuel + 1, atStart, c :: rest =>
    if atStart then
      match bulletTry (c :: rest) with
      | some (cap, after) => cap :: bulletFindallF fuel false after
      | none =>
        match (if c = '\n' then bulletTry rest else none) with
        | some (cap, after) => cap :: bulletFindallF fuel false after
        | none => bulletFindallF fuel false rest
    else
      match (if c = '\n' then bulletTry rest else none) with
      | some (cap, after) => cap :: bulletFindallF fuel false after
      | none => bulletFindallF fuel false rest

/-- The bulleted-line harvest used by `_extract_missing_info` and
`_handle_missing_info`. -/
def bulletFindall (s : Str) : List Str := bulletFindallF (s.length + 1) true s

/-- `re.split(r'(?:\.|;|\n)', s)`: split at every period, semicolon or
newline. -/
def splitAnyChars (s : Str) : List Str :=
  s.foldr
    (fun c groups =>
      if c = '.' ∨ c = ';' ∨ c = '\n' then [] :: groups
      else
        match groups with
        | g :: gs => (c :: g) :: gs
        | [] => [[c]])
    [[]]

/-- The sentence-split fallback of `_extract_missing_info`: split, strip, and
keep the non-empty pieces. -/
def splitSentences (raw : Str) : List Str :=
  ((splitAnyChars raw).map pyStrip).filter (fun x => !x.isEmpty)

/-- `LLMResponseProcessor._extract_missing_info`
(`llm_response_manager.py` lines 256-271). -/
def extract_missing_info (lower : Str) : Option (List Str) :=
  match missingCapture lower with
  | none => none
  | some cap =>
    let rawMissing := pyStrip cap
    let items := bulletFindall rawMissing
    let items2 := if items = [] then splitSentences rawMissing else items
    if items2 = [] then none else some items2

/-- `LLMResponseProcessor._detect_response_type`
(`llm_response_manager.py` lines 229-254). -/
def detect_response_type (rawResponse : Str) : Str × Str × Option (List Str) :=
  let L := pyLower rawResponse
  if containsSub (lit "información insuficiente") L ||
      containsSub (lit "necesito más información") L then
    (lit "missing_info", rawResponse, extract_missing_info L)
  else if containsSub (lit "error") L &&
      (containsSub (lit "procesar") L || containsSub (lit "procesamiento") L) then
    (lit "error", rawResponse, none)
  else
    (lit "requirements", rawResponse, none)

/-- The intermediate dictionary `_handle_missing_info` operates on. -/
structure CompleteData where
  status : Str
  content : ContentV
  missing_info : Option (List Str)
deriving DecidableEq

/-- `LLMResponseProcessor._handle_missing_info`
(`llm_response_manager.py` lines 209-227): harvest list items from string
content, synthesizing one generic placeholder when none are found.  (No call
site in `llm_response_manager.py` invokes it.) -/
def handle_missing_info (cd : CompleteData) : CompleteData :=
  if cd.status = lit "INFORMACION_INSUFICIENTE" ∧ cd.missing_info = none then
    match cd.content with
    | ContentV.str s =>
      let items := bulletFindall s
      if items = [] then
        {cd with missing_info := some [lit "Se requieren más detalles sobre el proyecto"]}
      else {cd with missing_info := some items}
    | ContentV.items _ => cd
  else cd

/-- `LLMResponseProcessor.process_llm_response`
(`llm_response_manager.py` lines 115-141).  `jsonParse` abstracts Python's
`json.loads` (returning `none` when it raises); any exception on the JSON
path — extraction failure, a parse error, or the list-content `TypeError`
inside `_determine_response_status` — takes the manual fallback path. -/
def process_llm_response (jsonParse : Str → Option ParsedLLM)
    (response : Option Str) (query : Str) : FinalResp :=
  let rawAnswer := response.getD (lit "No se encontró respuesta")
  let attempt :=
    match extract_json_from_response rawAnswer with
    | Except.error _ => none
    | Except.ok js => (jsonParse js).bind (fun sd => process_json_response sd rawAnswer query)
  match attempt with
  | some r => r
  | none =>
    let d := detect_response_type rawAnswer
    standardize_output (ContentV.str d.2.1) d.1 d.2.2 query

/-- The delimiter tokens a logged text must avoid (the claim's list): the
sentinel itself, the two field labels and the double-newline boundary. -/
def noDelimTokens (s : Str) : Bool :=
  !containsSub marker s && !containsSub pregLbl s &&
    !containsSub respLbl s && !containsSub nnl s

/-- Round-trip side condition on a query: delimiter-token-free, and not
ending in a newline (a trailing newline would advance the double-newline
field boundary by one character). -/
def okQuery (q : Str) : Bool := noDelimTokens q && q.getLast? != some '\n'

/-- Round-trip side condition on a response: delimiter-token-free and equal
to its own strip (the loader strips the response field). -/
def okResponse (r : Str) : Bool := noDelimTokens r && pyStrip r == r

/-- Round-trip side condition on a timestamp: newline-free and not containing
the query label (both hold for every timestamp the code writes: `strftime`
output, `"N/A"` and `"Imported"`). -/
def okTimestamp (t : Str) : Bool := t.all (fun c => c != '\n') && !containsSub pregLbl t

/-- No non-empty suffix of `L` is a prefix of `P` (decidable no-overlap check
between a concrete literal and a pattern). -/
def noSpanB (L P : Str) : Bool := L.tails.all (fun a => a.isEmpty || !a.isPrefixOf P)

/-- Specification-side description of the fenced-block rule: the content
between the first fence opening and the first closing fence after it,
whitespace-stripped — `none` when the text holds no complete fenced block. -/
def fencedSpec (raw : Str) : Option Str :=
  match subIdx? fenceOpen raw with
  | none => none
  | some i =>
    match subIdx? fence3 (raw.drop (i + fenceOpen.length)) with
    | none => none
    | some q => some (pyStrip ((raw.drop (i + fenceOpen.length)).take q))

theorem splitOnce_eq_concat {sep s a b : Str} (h : splitOnce sep s = some (a, b)) :
    s = a ++ sep ++ b := by
  induction s generalizing a b with
  | nil =>
    by_cases hsep : sep.isEmpty
    · simp [splitOnce, hsep] at h
      rcases h with ⟨h1, h2⟩
      simp [List.isEmpty_iff] at hsep
      simp [← h1, ← h2, hsep]
      rw [h1, h2]
    · simp [splitOnce, hsep] at h
  | cons c rest ih =>
    by_cases hpre : sep.isPrefixOf (c :: rest)
    · simp only [splitOnce, hpre, if_pos, Option.some.injEq, Prod.mk.injEq] at h
      rcases h with ⟨h1, h2⟩
      have hp : sep <+: (c :: rest) := List.isPrefixOf_iff_prefix.mp hpre
      rcases hp with ⟨t, ht⟩
      rw [← ht] at h2
      simp [List.drop_left] at h2
      rw [← h1, ← h2]
      simp [ht]
    · rw [splitOnce, if_neg hpre] at h
      cases hx : splitOnce sep rest with
      | none => rw [hx] at h; simp at h
      | some p =>
        rw [hx] at h
        rcases p with ⟨a', b'⟩
        simp only [Option.map_some', Option.some.injEq, Prod.mk.injEq] at h
        rcases h with ⟨h1, h2⟩
        have := ih hx
        rw [← h1, ← h2]
        simp [this]

theorem splitOnce_none_cons {sep : Str} {c : Char} {rest : Str}
    (h : splitOnce sep (c :: rest) = none) :
    ¬ sep.isPrefixOf (c :: rest) ∧ splitOnce sep rest = none := by
  by_cases hpre : sep.isPrefixOf (c :: rest)
  · simp [splitOnce, hpre] at h
  · constructor
    · exact hpre
    · simp [splitOnce, hpre] at h
      cases hx : splitOnce sep rest with
      | none => rfl
      | some p => rw [hx] at h; simp at h

theorem splitOnce_length_lt {sep s a b : Str} (hsep : sep ≠ [])
    (h : splitOnce sep s = some (a, b)) : b.length < s.length := by
  have hc := splitOnce_eq_concat h
  have : s.length = a.length + sep.length + b.length := by
    rw [hc]; simp [List.length_append]; omega
  have hpos : 0 < sep.length := List.length_pos.mpr hsep
  omega

theorem dchar_isDigit (d : Nat) : (dchar d).isDigit = true := by
  unfold dchar
  repeat' split
  all_goals decide

theorem dval_dchar {d : Nat} (h : d < 10) : dval (dchar d) = d := by
  interval_cases d <;> decide

theorem decodeNat_append_single (a : Str) (c : Char) :
    decodeNat (a ++ [c]) = decodeNat a * 10 + dval c := by
  simp [decodeNat, List.foldl_append]

theorem decodeNat_digitsF {fuel n : Nat} (h : n < fuel) :
    decodeNat (digitsF fuel n) = n := by
  induction fuel generalizing n with
  | zero => omega
  | succ fuel ih =>
    by_cases h10 : n < 10
    · simp [digitsF, h10, decodeNat, dval_dchar h10]
    · have hdiv : n / 10 < fuel := by
        have : n / 10 < n := Nat.div_lt_self (by omega) (by omega)
        omega
      simp only [digitsF, h10, if_false]
      rw [decodeNat_append_single, ih hdiv, dval_dchar (Nat.mod_lt _ (by omega))]
      omega

theorem decodeNat_replicate_zero (k : Nat) (s : Str) :
    decodeNat (List.replicate k '0' ++ s) = decodeNat s := by
  induction k with
  | zero => simp
  | succ k ih =>
    have : List.replicate (k + 1) '0' ++ s = '0' :: (List.replicate k '0' ++ s) := by
      simp [List.replicate_succ]
    rw [this]
    simpa [decodeNat] using ih

theorem decodeNat_padTo (w : Nat) (s : Str) : decodeNat (padTo w s) = decodeNat s :=
  decodeNat_replicate_zero _ _

theorem decodeNat_pad3 (n : Nat) : decodeNat (pad3 n) = n := by
  rw [pad3, decodeNat_padTo, digitsOf, decodeNat_digitsF (Nat.lt_succ_self n)]

theorem pad3_injective : Function.Injective pad3 := by
  intro m n h
  have := congrArg decodeNat h
  rwa [decodeNat_pad3, decodeNat_pad3] at this

theorem digitsF_all_digit {fuel n : Nat} : ∀ c ∈ digitsF fuel n, c.isDigit = true := by
  induction fuel generalizing n with
  | zero => simp [digitsF]
  | succ fuel ih =>
    intro c hc
    by_cases h10 : n < 10
    · simp [digitsF, h10] at hc
      rw [hc]; exact dchar_isDigit n
    · simp [digitsF, h10] at hc
      rcases hc with hc | hc
      · exact ih c hc
      · rw [hc]; exact dchar_isDigit _

theorem digitsF_ne_nil {fuel n : Nat} (h : n < fuel) : digitsF fuel n ≠ [] := by
  cases fuel with
  | zero => omega
  | succ fuel =>
    by_cases h10 : n < 10 <;> simp [digitsF, h10]

/-- The identifier overwrite applied to the item at position `i`. -/
def idOverwrite (ty : Str) (i : Nat) (x : Item) : Item :=
  {x with id := some ((if ty = lit "epic" then lit "EPIC-" else lit "US-") ++ pad3 (i + 1))}

theorem fix_content_ids_getElem? (content : List Item) (ty : Str) (i : Nat) :
    (fix_content_ids content ty)[i]? = content[i]?.map (idOverwrite ty i) := by
  rw [fix_content_ids, List.getElem?_map, List.getElem?_enum]
  cases content[i]? with
  | none => rfl
  | some x =>
    simp only [Option.map_some']
    by_cases hty : ty = lit "epic" <;> simp [idOverwrite, hty]

theorem map_id_fix_content_ids (content : List Item) (ty : Str) :
    (fix_content_ids content ty).map Item.id =
      (List.range content.length).map
        (fun i => some ((if ty = lit "epic" then lit "EPIC-" else lit "US-") ++ pad3 (i + 1))) := by
  apply List.ext_getElem?
  intro i
  rw [List.getElem?_map, fix_content_ids_getElem?, List.getElem?_map]
  by_cases hi : i < content.length
  · rw [List.getElem?_range hi]
    cases hx : content[i]? with
    | none => rw [List.getElem?_eq_none_iff] at hx; omega
    | some x => simp [hx, idOverwrite]
  · have hx : content[i]? = none := by rw [List.getElem?_eq_none_iff]; omega
    have hr : (List.range content.length)[i]? = none := by
      rw [List.getElem?_eq_none_iff]; simpa using hi
    simp [hx, hr]

theorem dropWhile_eq_self_of_head {p : Char → Bool} :
    ∀ {l : Str}, (∀ c, l.head? = some c → p c = false) → l.dropWhile p = l := by
  intro l h
  cases l with
  | nil => rfl
  | cons c t =>
    have := h c rfl
    simp [List.dropWhile_cons, this]

theorem stripL_eq_self {l : Str} (h : ∀ c, l.head? = some c → isSp c = false) :
    stripL l = l := dropWhile_eq_self_of_head h

theorem stripR_eq_self {l : Str} (h : ∀ c, l.getLast? = some c → isSp c = false) :
    stripR l = l := by
  rw [stripR, dropWhile_eq_self_of_head, List.reverse_reverse]
  intro c hc
  apply h
  rwa [List.head?_reverse] at hc

theorem pyStrip_eq_self {l : Str} (hh : ∀ c, l.head? = some c → isSp c = false)
    (hl : ∀ c, l.getLast? = some c → isSp c = false) : pyStrip l = l := by
  rw [pyStrip, stripL_eq_self hh, stripR_eq_self hl]

theorem isSp_of_isDigit {c : Char} (h : c.isDigit = true) : isSp c = false := by
  by_contra hc
  simp only [Bool.not_eq_false, isSp, Bool.or_eq_true, decide_eq_true_eq] at hc
  rcases hc with ((((h1 | h1) | h1) | h1) | h1) | h1 <;>
    (subst h1; exact absurd h (by decide))

theorem takeWhile_all {p : Char → Bool} :
    ∀ {l : Str}, (∀ c ∈ l, p c = true) → l.takeWhile p = l := by
  intro l h
  induction l with
  | nil => rfl
  | cons c t ih =>
    have hc := h c (by simp)
    simp [List.takeWhile_cons, hc, ih (fun x hx => h x (by simp [hx]))]

theorem firstDigitRun?_append_nondigit {x y : Str} (h : ∀ c ∈ x, c.isDigit = false) :
    firstDigitRun? (x ++ y) = firstDigitRun? y := by
  induction x with
  | nil => rfl
  | cons c t ih =>
    have hc := h c (by simp)
    simp only [List.cons_append, firstDigitRun?, hc, Bool.false_eq_true, if_false]
    exact ih (fun d hd => h d (by simp [hd]))

theorem firstDigitRun?_all_digits {d : Str} (hne : d ≠ []) (h : ∀ c ∈ d, c.isDigit = true) :
    firstDigitRun? d = some d := by
  cases d with
  | nil => exact absurd rfl hne
  | cons c t =>
    have hc := h c (by simp)
    simp only [firstDigitRun?, hc, if_true]
    rw [takeWhile_all (fun x hx => h x (by simp [hx]))]

theorem padTo_all_digits {w : Nat} {d : Str} (h : ∀ c ∈ d, c.isDigit = true) :
    ∀ c ∈ padTo w d, c.isDigit = true := by
  intro c hc
  rw [padTo, List.mem_append] at hc
  rcases hc with hc | hc
  · rw [List.eq_of_mem_replicate hc]; decide
  · exact h c hc

theorem digitsOf_all_digit (n : Nat) : ∀ c ∈ digitsOf n, c.isDigit = true :=
  fun c hc => digitsF_all_digit c hc

theorem padTo_digitsOf_ne_nil (w n : Nat) : padTo w (digitsOf n) ≠ [] := by
  rw [padTo]
  intro h
  rcases List.append_eq_nil.mp h with ⟨_, h2⟩
  exact digitsF_ne_nil (Nat.lt_succ_self n) h2

theorem mem_of_getLast?_eq {l : Str} {c : Char} (h : l.getLast? = some c) : c ∈ l := by
  have hx : c ∈ l.getLast? := Option.mem_def.mpr h
  rcases List.mem_getLast?_eq_getLast hx with ⟨hne, hc⟩
  rw [hc]
  exact List.getLast_mem hne

theorem reqNumStr_prefixed (pfx : Str) (m : Nat) (c0 : Char) (pr : Str)
    (hpfx : pfx = c0 :: pr)
    (hc0 : isSp c0 = false ∧ c0 ≠ '+' ∧ c0 ≠ '-' ∧ c0.isDigit = false)
    (hnd : ∀ c ∈ pfx, c.isDigit = false) :
    reqNumStr (pfx ++ padTo 3 (digitsOf m)) = Int.ofNat m := by
  have hdig : ∀ c ∈ padTo 3 (digitsOf m), c.isDigit = true :=
    padTo_all_digits (digitsOf_all_digit m)
  have hne : padTo 3 (digitsOf m) ≠ [] := padTo_digitsOf_ne_nil 3 m
  have hstrip : pyStrip (pfx ++ padTo 3 (digitsOf m)) = pfx ++ padTo 3 (digitsOf m) := by
    apply pyStrip_eq_self
    · intro c hc
      rw [hpfx, List.cons_append, List.head?_cons, Option.some.injEq] at hc
      rw [← hc]; exact hc0.1
    · intro c hc
      rw [List.getLast?_append] at hc
      cases hg : (padTo 3 (digitsOf m)).getLast? with
      | none => exact absurd (List.getLast?_eq_none_iff.mp hg) hne
      | some d =>
        rw [hg] at hc
        simp only [Option.or_some, Option.some.injEq] at hc
        rw [← hc]
        exact isSp_of_isDigit (hdig d (mem_of_getLast?_eq hg))
  have hparse : pyIntParse? (pfx ++ padTo 3 (digitsOf m)) = none := by
    rw [pyIntParse?]
    rw [hstrip, hpfx, List.cons_append]
    simp only [hc0.2.1, hc0.2.2.1, if_false]
    have hall : allDigits (c0 :: (pr ++ padTo 3 (digitsOf m))) = false := by
      rw [allDigits, List.all_cons, hc0.2.2.2, Bool.false_and]
    simp [hall]
  have hrun : firstDigitRun? (pfx ++ padTo 3 (digitsOf m)) = some (padTo 3 (digitsOf m)) := by
    rw [firstDigitRun?_append_nondigit hnd, firstDigitRun?_all_digits hne hdig]
  rw [reqNumStr, hparse, hrun]
  simp only [decodeNat_padTo, digitsOf, decodeNat_digitsF (Nat.lt_succ_self m)]

theorem format_requirements_eq_map (reqs : List Item) :
    format_requirements reqs = reqs.map (fun r => {r with id := some (reqNewId r)}) := by
  rw [format_requirements]
  apply List.map_congr_left
  intro r _
  by_cases h : isNonFunctional r <;> simp [reqNewId, h]

theorem fix_content_ids_idem (content : List Item) (ty : Str) :
    fix_content_ids (fix_content_ids content ty) ty = fix_content_ids content ty := by
  apply List.ext_getElem?
  intro i
  rw [fix_content_ids_getElem?, fix_content_ids_getElem?]
  cases content[i]? <;> simp [idOverwrite]

theorem reqNewId_expand (x : Item) :
    reqNewId x = (if isNonFunctional x then lit "REQ-NF-" else lit "REQ-") ++ padInt3 (reqNum x) := by
  by_cases h : isNonFunctional x <;> simp [reqNewId, h]

theorem reqNewId_stable {r : Item} (hn : 0 ≤ reqNum r) :
    reqNewId {r with id := some (reqNewId r)} = reqNewId r := by
  have hpad : padInt3 (reqNum r) = padTo 3 (digitsOf (reqNum r).toNat) := by
    rw [padInt3, if_neg (by omega)]
  have hcat : isNonFunctional {r with id := some (reqNewId r)} = isNonFunctional r := by
    simp [isNonFunctional]
  have hnum : reqNum {r with id := some (reqNewId r)} = reqNum r := by
    show reqNumStr (reqNewId r) = reqNum r
    rw [reqNewId]
    by_cases h : isNonFunctional r
    · rw [if_pos h, hpad,
        reqNumStr_prefixed (lit "REQ-NF-") _ 'R' (lit "EQ-NF-") (by decide) (by decide) (by decide)]
      simpa using Int.toNat_of_nonneg hn
    · rw [if_neg h, hpad,
        reqNumStr_prefixed (lit "REQ-") _ 'R' (lit "EQ-") (by decide) (by decide) (by decide)]
      simpa using Int.toNat_of_nonneg hn
  rw [reqNewId_expand ({r with id := some (reqNewId r)} : Item), hcat, hnum, ← reqNewId_expand r]

theorem format_requirements_idem (reqs : List Item) (hn : ∀ r ∈ reqs, 0 ≤ reqNum r) :
    format_requirements (format_requirements reqs) = format_requirements reqs := by
  rw [format_requirements_eq_map reqs, format_requirements_eq_map, List.map_map]
  apply List.map_congr_left
  intro r hr
  have hs := reqNewId_stable (hn r hr)
  simp only [Function.comp_apply]
  rw [hs]

/-- C8: every item list passed through `fix_content_ids` gets positional
identifiers: the `i`-th output item is the `i`-th input item with its `id`
replaced by `EPIC-` (for the epic kind) or `US-` (for any other kind,
including user stories) followed by the 1-based position zero-padded to three
digits; consequently the output identifiers are all distinct and sequential
in list order. -/
theorem claim_C8_fix_content_ids_positional (content : List Item) (ty : Str) (i : Nat) :
    (fix_content_ids content ty)[i]? =
      content[i]?.map (fun x =>
        {x with id := some ((if ty = lit "epic" then lit "EPIC-" else lit "US-") ++ pad3 (i + 1))})
    ∧ ((fix_content_ids content ty).map Item.id).Nodup := by
  constructor
  · exact fix_content_ids_getElem? content ty i
  · rw [map_id_fix_content_ids]
    apply List.Nodup.map _ (List.nodup_range _)
    intro a b hab
    simp only [Option.some.injEq] at hab
    have := pad3_injective (List.append_cancel_left hab)
    omega

/-- C9 counterexample: identifier reassignment by `_format_requirements` is
not idempotent.  For the single requirement with id `"-5"` (which `int`
parses as a negative number), the first pass yields `REQ--05` and the second
pass re-reads the digits `05` and yields `REQ-005`. -/
theorem claim_C9_counterexample :
    format_requirements (format_requirements [⟨some (lit "-5"), some [], lit "t"⟩]) ≠
      format_requirements [⟨some (lit "-5"), some [], lit "t"⟩] := by decide

/-- C9 amended: `fix_content_ids` is idempotent for every list and kind; and
`_format_requirements` is idempotent on every requirement list whose
extracted numbers are non-negative (the reassigned id then round-trips
through the digit-run extraction of the second pass). -/
theorem claim_C9_amended :
    (∀ (content : List Item) (ty : Str),
        fix_content_ids (fix_content_ids content ty) ty = fix_content_ids content ty) ∧
    (∀ reqs : List Item, (∀ r ∈ reqs, 0 ≤ reqNum r) →
        format_requirements (format_requirements reqs) = format_requirements reqs) :=
  ⟨fix_content_ids_idem, format_requirements_idem⟩

/-- Witness for C9 amended at concrete inputs. -/
theorem claim_C9_witness :
    fix_content_ids (fix_content_ids [⟨none, none, lit "a"⟩] (lit "epic")) (lit "epic") =
      fix_content_ids [⟨none, none, lit "a"⟩] (lit "epic") ∧
    ((∀ r ∈ [(⟨some (lit "3"), none, lit "b"⟩ : Item)], 0 ≤ reqNum r) ∧
      format_requirements (format_requirements [⟨some (lit "3"), none, lit "b"⟩]) =
        format_requirements [⟨some (lit "3"), none, lit "b"⟩]) :=
  ⟨claim_C9_amended.1 _ _, by decide, claim_C9_amended.2 _ (by decide)⟩

/-- C2 counterexample: the model-suggested identifier is not discarded in
favor of positional reassignment.  For the single functional requirement with
id `"7"`, positional reassignment would give `REQ-001`, but
`_format_requirements` re-derives the number from the original id and gives
`REQ-007`. -/
theorem claim_C2_counterexample :
    (format_requirements [⟨some (lit "7"), none, lit "t"⟩]).map Item.id =
      [some (lit "REQ-007")] ∧ lit "REQ-007" ≠ lit "REQ-001" := by decide

/-- C2 amended: `_format_requirements` rewrites each identifier to
`REQ-`/`REQ-NF-` (chosen by whether the lower-cased category contains
`no funcional` or `nf`, defaulting to functional when the category is absent)
followed by the number extracted from the item's ORIGINAL id — `int` parse,
else first digit run, else `0` — zero-padded to three digits; the position of
the item plays no role. -/
theorem claim_C2_amended (reqs : List Item) :
    format_requirements reqs =
      reqs.map (fun r =>
        {r with id := some ((if isNonFunctional r then lit "REQ-NF-" else lit "REQ-") ++
          padInt3 (reqNum r))}) := by
  rw [format_requirements_eq_map]
  apply List.map_congr_left
  intro r _
  by_cases h : isNonFunctional r <;> simp [reqNewId, h]

/-- C3 counterexample: merging `{"content":[{"id":"1","category":"Funcional",...}]}`
and `{"content":[{"id":"2","category":"No Funcional",...}]}` does NOT yield
one functional and one non-functional item: neither id starts with `REQ-NF-`,
so both land in the functional bucket. -/
theorem claim_C3_counterexample :
    ¬((merge_responses
          ⟨some [Cell.dict ⟨some (lit "1"), some (lit "Funcional"), lit "a"⟩], lit "q"⟩
          ⟨some [Cell.dict ⟨some (lit "2"), some (lit "No Funcional"), lit "b"⟩],
            []⟩).funcionales.length = 1 ∧
      (merge_responses
          ⟨some [Cell.dict ⟨some (lit "1"), some (lit "Funcional"), lit "a"⟩], lit "q"⟩
          ⟨some [Cell.dict ⟨some (lit "2"), some (lit "No Funcional"), lit "b"⟩],
            []⟩).no_funcionales.length = 1) := by decide

/-- C3 amended: on those two inputs the merger keeps both items, unchanged
ids `"1"` and `"2"`, in the FUNCTIONAL bucket (both categories overwritten to
`Funcional`), and the non-functional bucket is empty: bucketing tests only the
`REQ-NF-` id prefix and `merge_responses` never reassigns identifiers. -/
theorem claim_C3_amended :
    merge_responses
        ⟨some [Cell.dict ⟨some (lit "1"), some (lit "Funcional"), lit "a"⟩], lit "q"⟩
        ⟨some [Cell.dict ⟨some (lit "2"), some (lit "No Funcional"), lit "b"⟩], []⟩ =
      { status := lit "REQUERIMIENTOS_GENERADOS", query := lit "q",
        funcionales := [⟨some (lit "1"), some (lit "Funcional"), lit "a"⟩,
                        ⟨some (lit "2"), some (lit "Funcional"), lit "b"⟩],
        no_funcionales := [] } := by decide

theorem mergeLoop_invariant (cells : List Cell) :
    ∀ (seen : List Str) (fs ns : List Item),
      (∀ x ∈ fs, x.category = some (lit "Funcional") ∧
        ∃ i, x.id = some i ∧ (lit "REQ-NF-").isPrefixOf i = false) →
      (∀ x ∈ ns, x.category = some (lit "No Funcional") ∧
        ∃ i, x.id = some i ∧ (lit "REQ-NF-").isPrefixOf i = true) →
      (∀ x ∈ (mergeLoop cells seen fs ns).1, x.category = some (lit "Funcional") ∧
        ∃ i, x.id = some i ∧ (lit "REQ-NF-").isPrefixOf i = false) ∧
      (∀ x ∈ (mergeLoop cells seen fs ns).2, x.category = some (lit "No Funcional") ∧
        ∃ i, x.id = some i ∧ (lit "REQ-NF-").isPrefixOf i = true) := by
  induction cells with
  | nil => intro seen fs ns hf hn; exact ⟨hf, hn⟩
  | cons cell rest ih =>
    intro seen fs ns hf hn
    cases cell with
    | other => exact ih seen fs ns hf hn
    | dict it =>
      cases hid : it.id with
      | none => simp only [mergeLoop, hid]; exact ih seen fs ns hf hn
      | some i =>
        by_cases hskip : i = [] ∨ seen.contains i
        · simp only [mergeLoop, hid, if_pos hskip]; exact ih seen fs ns hf hn
        · by_cases hpre : (lit "REQ-NF-").isPrefixOf i
          · simp only [mergeLoop, hid, if_neg hskip, if_pos hpre]
            apply ih
            · exact hf
            · intro x hx
              rw [List.mem_append] at hx
              rcases hx with hx | hx
              · exact hn x hx
              · rw [List.mem_singleton] at hx
                subst hx
                exact ⟨rfl, i, by simp [hid], hpre⟩
          · simp only [mergeLoop, hid, if_neg hskip, if_neg hpre]
            apply ih
            · intro x hx
              rw [List.mem_append] at hx
              rcases hx with hx | hx
              · exact hf x hx
              · rw [List.mem_singleton] at hx
                subst hx
                refine ⟨rfl, i, by simp [hid], ?_⟩
                simp only [Bool.not_eq_true] at hpre
                exact hpre
            · exact hn

/-- C10: every item kept by `merge_responses` has its `category` overwritten
from its incoming identifier alone: items in the non-functional bucket carry
category `No Funcional` and an id starting with `REQ-NF-`; items in the
functional bucket carry category `Funcional` and an id that does not start
with `REQ-NF-` — whatever category the input item carried. -/
theorem claim_C10_merge_bucketing (f nf : ParsedResp) :
    (∀ x ∈ (merge_responses f nf).funcionales, x.category = some (lit "Funcional") ∧
      ∃ i, x.id = some i ∧ (lit "REQ-NF-").isPrefixOf i = false) ∧
    (∀ x ∈ (merge_responses f nf).no_funcionales, x.category = some (lit "No Funcional") ∧
      ∃ i, x.id = some i ∧ (lit "REQ-NF-").isPrefixOf i = true) := by
  have h := mergeLoop_invariant (f.contentList.getD [] ++ nf.contentList.getD [])
    [] [] [] (by simp) (by simp)
  exact h

/-- Witness for C10 at a concrete merge input: an input item with id
`REQ-NF-001` but category `Funcional` ends in the non-functional bucket with
its category overwritten. -/
theorem claim_C10_witness :
    ∃ x, x ∈ (merge_responses
        ⟨some [Cell.dict ⟨some (lit "REQ-001"), none, lit "a"⟩], []⟩
        ⟨some [Cell.dict ⟨some (lit "REQ-NF-001"), some (lit "Funcional"), lit "b"⟩],
          []⟩).no_funcionales ∧
      x.category = some (lit "No Funcional") ∧
      ∃ i, x.id = some i ∧ (lit "REQ-NF-").isPrefixOf i = true := by
  refine ⟨⟨some (lit "REQ-NF-001"), some (lit "No Funcional"), lit "b"⟩, ?_, ?_⟩
  · decide
  · exact (claim_C10_merge_bucketing
      ⟨some [Cell.dict ⟨some (lit "REQ-001"), none, lit "a"⟩], []⟩
      ⟨some [Cell.dict ⟨some (lit "REQ-NF-001"), some (lit "Funcional"), lit "b"⟩], []⟩).2
      _ (by decide)

/-- C1 (code bug): processing the raw model response `información insuficiente`
(for any JSON parser behavior and any query) finalizes with status
`INFORMACION_INSUFICIENTE` and `missing_info = None`: JSON extraction fails,
`_detect_response_type` selects the missing-info type, but
`_extract_missing_info` finds no `necesito`/`falta` keyword and returns
`None`, and nothing on this path (nor on the JSON path) calls
`_handle_missing_info`, which exists precisely to synthesize the placeholder
list the specification promises. -/
theorem claim_C1_invariant_violated (p : Str → Option ParsedLLM) (q : Str) :
    (process_llm_response p (some (lit "información insuficiente")) q).status =
      lit "INFORMACION_INSUFICIENTE" ∧
    (process_llm_response p (some (lit "información insuficiente")) q).missing_info = none := by
  constructor <;> rfl

/-- Supporting fact for C1: `_handle_missing_info` itself does enforce the
invariant — on string content with insufficient-information status and no
missing-info list it always synthesizes a non-empty list. -/
theorem handle_missing_info_enforces (s : Str) :
    ∃ l, (handle_missing_info ⟨lit "INFORMACION_INSUFICIENTE", ContentV.str s, none⟩).missing_info
        = some l ∧ l ≠ [] := by
  rw [handle_missing_info, if_pos ⟨rfl, rfl⟩]
  by_cases h : bulletFindall s = []
  · exact ⟨[lit "Se requieren más detalles sobre el proyecto"], by simp [h], by simp⟩
  · exact ⟨bulletFindall s, by simp [h], h⟩

/-- C6: persisting a session whose in-memory history is already fully covered
by the file's sentinel count appends nothing: the file is unchanged, and in
particular the sentinel count is unchanged. -/
theorem claim_C6_persist_idempotent (h : List ConvEntry) (f : Str)
    (hcount : pyCount marker f = h.length) :
    save_conversation_history h f = f ∧
    pyCount marker (save_conversation_history h f) = pyCount marker f := by
  have h1 : save_conversation_history h f = f := by
    rw [save_conversation_history, hcount, List.drop_length]
    simp
  exact ⟨h1, by rw [h1]⟩

/-- Witness for C6: a freshly persisted one-turn session has sentinel count 1,
and persisting again leaves the file unchanged. -/
theorem claim_C6_witness :
    pyCount marker (save_conversation_history [⟨lit "hola", lit "bien", lit "N/A"⟩] []) = 1 ∧
    save_conversation_history [⟨lit "hola", lit "bien", lit "N/A"⟩]
        (save_conversation_history [⟨lit "hola", lit "bien", lit "N/A"⟩] []) =
      save_conversation_history [⟨lit "hola", lit "bien", lit "N/A"⟩] [] := by
  constructor
  · decide
  · exact (claim_C6_persist_idempotent [⟨lit "hola", lit "bien", lit "N/A"⟩] _ (by decide)).1

theorem standardize_status_missing (c : ContentV) (mi : Option (List Str)) (q : Str) :
    (standardize_output c (lit "missing_info") mi q).status = lit "INFORMACION_INSUFICIENTE" := by
  rw [standardize_output.eq_def]
  rw [if_neg (by decide), if_pos rfl]

theorem standardize_status_error (c : ContentV) (mi : Option (List Str)) (q : Str) :
    (standardize_output c (lit "error") mi q).status = lit "ERROR_PROCESAMIENTO" := by
  rw [standardize_output.eq_def]
  rw [if_neg (by decide), if_neg (by decide), if_pos rfl]

theorem standardize_status_requirements (c : ContentV) (mi : Option (List Str)) (q : Str) :
    (standardize_output c (lit "requirements") mi q).status = lit "REQUERIMIENTOS_GENERADOS" := by
  rw [standardize_output.eq_def]
  rw [if_pos rfl]

theorem process_fallback (p : Str → Option ParsedLLM) (raw q : Str) (e : ExtractErr)
    (he : extract_json_from_response raw = Except.error e) :
    process_llm_response p (some raw) q =
      standardize_output (ContentV.str (detect_response_type raw).2.1)
        (detect_response_type raw).1 (detect_response_type raw).2.2 q := by
  rw [process_llm_response]
  simp only [Option.getD_some, he]

/-- C4 corrected characterization of the extraction-failure path: the
fallback classifier checks the insufficient-information phrases first; the
word `error` classifies as a processing error only TOGETHER with
`procesar`/`procesamiento`; and every other text — matching domain keywords
or not — is classified as generated requirements (there is no general
default on this path; the priority order the claim describes, with bare
`error` and a general default, is the JSON-success rule set of
`_determine_response_status`). -/
theorem claim_C4_amended (p : Str → Option ParsedLLM) (raw q : Str)
    (hfail : ∃ e, extract_json_from_response raw = Except.error e) :
    (process_llm_response p (some raw) q).status =
      (if containsSub (lit "información insuficiente") (pyLower raw) ||
          containsSub (lit "necesito más información") (pyLower raw) then
        lit "INFORMACION_INSUFICIENTE"
      else if containsSub (lit "error") (pyLower raw) &&
          (containsSub (lit "procesar") (pyLower raw) ||
            containsSub (lit "procesamiento") (pyLower raw)) then
        lit "ERROR_PROCESAMIENTO"
      else lit "REQUERIMIENTOS_GENERADOS") := by
  rcases hfail with ⟨e, he⟩
  rw [process_fallback p raw q e he, detect_response_type]
  by_cases h1 : containsSub (lit "información insuficiente") (pyLower raw) ||
      containsSub (lit "necesito más información") (pyLower raw)
  · rw [if_pos h1, if_pos h1]
    exact standardize_status_missing _ _ _
  · rw [if_neg h1, if_neg h1]
    by_cases h2 : containsSub (lit "error") (pyLower raw) &&
        (containsSub (lit "procesar") (pyLower raw) ||
          containsSub (lit "procesamiento") (pyLower raw))
    · rw [if_pos h2, if_pos h2]
      exact standardize_status_error _ _ _
    · rw [if_neg h2, if_neg h2]
      exact standardize_status_requirements _ _ _

/-- C4 counterexample: the raw text `hola` (JSON extraction fails, no keyword
matches) is finalized as `REQUERIMIENTOS_GENERADOS`, not as the general
status the claim's default rule predicts. -/
theorem claim_C4_counterexample :
    (process_llm_response (fun _ => none) (some (lit "hola")) []).status =
      lit "REQUERIMIENTOS_GENERADOS" ∧
    (process_llm_response (fun _ => none) (some (lit "hola")) []).status ≠
      lit "RESPUESTA_GENERAL" := by
  constructor
  · rfl
  · decide

/-- Witness for C4 amended: the raw text `error al procesar` fails extraction
and is classified as a processing error. -/
theorem claim_C4_witness :
    (∃ e, extract_json_from_response (lit "error al procesar") = Except.error e) ∧
    (process_llm_response (fun _ => none) (some (lit "error al procesar")) []).status =
      lit "ERROR_PROCESAMIENTO" := by
  constructor
  · exact ⟨ExtractErr.noJsonFound, rfl⟩
  · have h := claim_C4_amended (fun _ => none) (lit "error al procesar") []
      ⟨ExtractErr.noJsonFound, rfl⟩
    rw [h]
    decide

theorem splitOnce_eq_subIdx (pat : Str) :
    ∀ s : Str, splitOnce pat s =
      (subIdx? pat s).map (fun i => (s.take i, s.drop (i + pat.length))) := by
  intro s
  induction s with
  | nil =>
    by_cases hp : pat.isEmpty
    · simp [splitOnce, subIdx?, hp]
    · simp [splitOnce, subIdx?, hp]
  | cons c rest ih =>
    by_cases hpre : pat.isPrefixOf (c :: rest)
    · simp [splitOnce, subIdx?, hpre]
    · rw [splitOnce, if_neg hpre, subIdx?, if_neg hpre, ih]
      cases subIdx? pat rest with
      | none => rfl
      | some i =>
        simp only [Option.map_some', Option.some.injEq, Prod.mk.injEq]
        exact ⟨by rw [List.take_succ_cons],
          by rw [show i + 1 + pat.length = (i + pat.length) + 1 by omega, List.drop_succ_cons]⟩

theorem subIdx?_single (ch : Char) :
    ∀ s : Str, subIdx? [ch] s = charIdx? ch s := by
  intro s
  induction s with
  | nil => simp [subIdx?, charIdx?]
  | cons c rest ih =>
    rw [subIdx?, charIdx?, List.findIdx?_cons]
    by_cases hc : c = ch
    · subst hc
      rw [if_pos (by simp [List.isPrefixOf]), if_pos (by simp)]
    · rw [if_neg (by simp [List.isPrefixOf]; exact fun h => hc h.symm),
        if_neg (by simp [hc])]
      rw [List.findIdx?_succ, ih, charIdx?]

theorem splitOnce_single (ch : Char) (s : Str) :
    splitOnce [ch] s = (charIdx? ch s).map (fun i => (s.take i, s.drop (i + 1))) := by
  rw [splitOnce_eq_subIdx, subIdx?_single]
  rfl

theorem extract_of_fenced {raw fc : Str} (h : fencedSpec raw = some fc) :
    extract_json_from_response raw = Except.ok fc := by
  cases h1 : subIdx? fenceOpen raw with
  | none => simp [fencedSpec, h1] at h
  | some i =>
    cases h2 : subIdx? fence3 (raw.drop (i + fenceOpen.length)) with
    | none => simp [fencedSpec, h1, h2] at h
    | some q =>
      simp only [fencedSpec, h1, h2, Option.some.injEq] at h
      simp only [extract_json_from_response.eq_def, splitOnce_eq_subIdx, h1, h2,
        Option.map_some']
      rw [h]

theorem extract_of_no_fence {raw : Str} (h : fencedSpec raw = none) :
    extract_json_from_response raw = braceExtract raw := by
  cases h1 : subIdx? fenceOpen raw with
  | none =>
    simp only [extract_json_from_response.eq_def, splitOnce_eq_subIdx, h1, Option.map_none']
  | some i =>
    cases h2 : subIdx? fence3 (raw.drop (i + fenceOpen.length)) with
    | none =>
      simp only [extract_json_from_response.eq_def, splitOnce_eq_subIdx, h1, h2,
        Option.map_some', Option.map_none']
    | some q => simp [fencedSpec, h1, h2] at h

theorem braceExtract_of_braces {raw : Str} {i j : Nat}
    (hi : charIdx? lbrace raw = some i) (hj : lastCharIdx? rbrace raw = some j)
    (hij : i < j) :
    braceExtract raw = Except.ok ((raw.drop i).take (j - i + 1)) := by
  rw [lastCharIdx?] at hj
  cases hk : raw.reverse.findIdx? (fun x => x == rbrace) with
  | none => rw [hk] at hj; exact absurd hj (by simp)
  | some k =>
    rw [hk] at hj
    simp only [Option.map_some', Option.some.injEq] at hj
    rw [List.findIdx?_eq_some_iff_getElem] at hk
    obtain ⟨hklen, hkp, hkmin⟩ := hk
    rw [List.length_reverse] at hklen
    have hi2 := hi
    rw [charIdx?, List.findIdx?_eq_some_iff_getElem] at hi2
    obtain ⟨hilen, hip, himin⟩ := hi2
    have hibrace : raw[i] = lbrace := eq_of_beq hip
    have hjlt : j < raw.length := by omega
    have hrawjq : raw[j]? = some rbrace := by
      have hq1 : (List.reverse raw)[k]? = some rbrace := by
        rw [List.getElem?_eq_getElem (by simpa using hklen)]
        exact congrArg some (eq_of_beq hkp)
      rw [List.getElem?_reverse hklen] at hq1
      rwa [hj] at hq1
    have hklt : k < raw.length - (i + 1) := by omega
    have hrev : (raw.drop (i + 1)).reverse = raw.reverse.take (raw.length - (i + 1)) := by
      rw [List.reverse_drop]
    have hfind2 : charIdx? rbrace (raw.drop (i + 1)).reverse = some k := by
      rw [charIdx?, hrev, List.findIdx?_eq_some_iff_getElem]
      refine ⟨?_, ?_, ?_⟩
      · rw [List.length_take]
        simp only [List.length_reverse]
        omega
      · simpa using hkp
      · intro m hm
        have := hkmin m hm
        simpa using this
    rw [braceExtract.eq_def, splitOnce_single, hi]
    simp only [Option.map_some']
    rw [splitOnce_single, hfind2]
    simp only [Option.map_some']
    have hdropi : raw.drop i = lbrace :: raw.drop (i + 1) := by
      rw [List.drop_eq_getElem_cons hilen, hibrace]
    have hr1 : ((raw.drop (i + 1)).reverse.drop (k + 1)).reverse =
        (raw.drop (i + 1)).take ((raw.drop (i + 1)).length - (k + 1)) := by
      rw [List.drop_reverse, List.reverse_reverse]
    have hlenrest : (raw.drop (i + 1)).length = raw.length - (i + 1) := by simp
    have harith : (raw.drop (i + 1)).length - (k + 1) = j - i - 1 := by
      rw [hlenrest]; omega
    have hgetrest : (raw.drop (i + 1))[j - i - 1]? = some rbrace := by
      rw [List.getElem?_drop, show i + 1 + (j - i - 1) = j from by omega]
      exact hrawjq
    rw [hr1, harith, hdropi,
      show j - i + 1 = (j - i) + 1 from by omega, List.take_succ_cons,
      show j - i = (j - i - 1) + 1 from by omega, List.take_succ, hgetrest]
    rfl

theorem braceExtract_none {raw : Str}
    (hno : ¬ ∃ i j, charIdx? lbrace raw = some i ∧ lastCharIdx? rbrace raw = some j ∧ i < j) :
    braceExtract raw = Except.error ExtractErr.noJsonFound := by
  rw [braceExtract.eq_def, splitOnce_single]
  cases hi : charIdx? lbrace raw with
  | none => rfl
  | some i =>
    simp only [Option.map_some']
    rw [splitOnce_single]
    cases hk : charIdx? rbrace (raw.drop (i + 1)).reverse with
    | none => rfl
    | some k =>
      exfalso
      apply hno
      rw [charIdx?, List.findIdx?_eq_some_iff_getElem] at hk
      obtain ⟨hkl, hkp, _⟩ := hk
      have hrlen : (raw.drop (i + 1)).length = raw.length - (i + 1) := by simp
      have hilen : i < raw.length := by
        have hi2 := hi
        rw [charIdx?, List.findIdx?_eq_some_iff_getElem] at hi2
        exact hi2.1
      have hkl2 : k < (raw.drop (i + 1)).length := by simpa using hkl
      have hrestq : (raw.drop (i + 1))[(raw.drop (i + 1)).length - 1 - k]? = some rbrace := by
        have hq : (raw.drop (i + 1)).reverse[k]? = some rbrace := by
          rw [List.getElem?_eq_getElem hkl]
          exact congrArg some (eq_of_beq hkp)
        rwa [List.getElem?_reverse hkl2] at hq
      have hlt : i + 1 + ((raw.drop (i + 1)).length - 1 - k) < raw.length := by
        rw [hrlen]
        omega
      have hj0q : raw[i + 1 + ((raw.drop (i + 1)).length - 1 - k)]? = some rbrace := by
        rw [← List.getElem?_drop]
        exact hrestq
      have hmem : rbrace ∈ raw.reverse := by
        rw [List.mem_reverse]
        exact List.getElem?_mem hj0q
      cases hkr : raw.reverse.findIdx? (fun x => x == rbrace) with
      | none =>
        rw [List.findIdx?_eq_none_iff] at hkr
        exact absurd (hkr rbrace hmem) (by simp)
      | some k2 =>
        refine ⟨i, raw.length - 1 - k2, hi, ?_, ?_⟩
        · rw [lastCharIdx?, hkr]
          rfl
        · rw [List.findIdx?_eq_some_iff_getElem] at hkr
          obtain ⟨hk2l, hk2p, hk2min⟩ := hkr
          rw [List.length_reverse] at hk2l
          by_contra hcon
          push_neg at hcon
          have hm0lt : raw.length - 1 - (i + 1 + ((raw.drop (i + 1)).length - 1 - k)) < k2 := by
            rw [hrlen] at *
            omega
          apply hk2min _ hm0lt
          have hm0 : raw.reverse[raw.length - 1 -
              (i + 1 + ((raw.drop (i + 1)).length - 1 - k))]? = some rbrace := by
            rw [List.getElem?_reverse (by omega)]
            rw [show raw.length - 1 - (raw.length - 1 -
              (i + 1 + ((raw.drop (i + 1)).length - 1 - k))) =
              i + 1 + ((raw.drop (i + 1)).length - 1 - k) from by omega]
            exact hj0q
          have hlen2 : raw.length - 1 - (i + 1 + ((raw.drop (i + 1)).length - 1 - k)) <
              raw.reverse.length := by
            rw [List.length_reverse]
            omega
          have hg : raw.reverse[raw.length - 1 -
              (i + 1 + ((raw.drop (i + 1)).length - 1 - k))] = rbrace := by
            rwa [List.getElem?_eq_getElem hlen2, Option.some.injEq] at hm0
          rw [hg]
          simp

/-- C7: JSON extraction follows the claimed rule order.  (1) If the text has
a complete fenced block — a first fence opening with a closing fence after it
— extraction returns exactly the fenced content with surrounding whitespace
stripped.  Otherwise (2) if the first opening brace is followed later by the
last closing brace, extraction returns the substring bounded by them, and
(3) with no such brace pair extraction fails with the no-JSON-found error. -/
theorem claim_C7_extraction_rules (raw : Str) :
    (∀ fc, fencedSpec raw = some fc → extract_json_from_response raw = Except.ok fc) ∧
    (fencedSpec raw = none →
      ∀ i j, charIdx? lbrace raw = some i → lastCharIdx? rbrace raw = some j → i < j →
        extract_json_from_response raw = Except.ok ((raw.drop i).take (j - i + 1))) ∧
    (fencedSpec raw = none →
      (¬ ∃ i j, charIdx? lbrace raw = some i ∧ lastCharIdx? rbrace raw = some j ∧ i < j) →
      extract_json_from_response raw = Except.error ExtractErr.noJsonFound) := by
  refine ⟨fun fc h => extract_of_fenced h, fun hf i j hi hj hij => ?_, fun hf hno => ?_⟩
  · rw [extract_of_no_fence hf]
    exact braceExtract_of_braces hi hj hij
  · rw [extract_of_no_fence hf]
    exact braceExtract_none hno

/-- Witness for C7: a fenced input returns the stripped fenced content, and a
fence-free input with braces returns the first-to-last brace span. -/
theorem claim_C7_witness :
    (fencedSpec (lit "x ```json  y  ``` z") = some (lit "y") ∧
      extract_json_from_response (lit "x ```json  y  ``` z") = Except.ok (lit "y")) ∧
    extract_json_from_response (lit "a" ++ [lbrace] ++ lit "b" ++ [rbrace] ++ lit "c") =
      Except.ok ([lbrace] ++ lit "b" ++ [rbrace]) := by
  refine ⟨⟨by decide, (claim_C7_extraction_rules (lit "x ```json  y  ``` z")).1 (lit "y")
    (by decide)⟩, ?_⟩
  have h := (claim_C7_extraction_rules (lit "a" ++ [lbrace] ++ lit "b" ++ [rbrace] ++ lit "c")).2.1
    (by decide) 1 3 (by decide) (by decide) (by decide)
  rw [h]
  have hval : List.take (3 - 1 + 1) (List.drop 1 (lit "a" ++ [lbrace] ++ lit "b" ++ [rbrace] ++ lit "c")) =
      [lbrace] ++ lit "b" ++ [rbrace] := by decide
  rw [hval]

theorem splitOnce_self_append {sep : Str} (hsep : sep ≠ []) (rest : Str) :
    splitOnce sep (sep ++ rest) = some ([], rest) := by
  cases sep with
  | nil => exact absurd rfl hsep
  | cons d ds =>
    show splitOnce (d :: ds) (d :: (ds ++ rest)) = some ([], rest)
    have hpre : (d :: ds).isPrefixOf (d :: (ds ++ rest)) = true :=
      List.isPrefixOf_iff_prefix.mpr ⟨rest, by simp⟩
    rw [splitOnce, if_pos hpre]
    simp [List.drop_left]

theorem splitOnce_isSome_infix (pat : Str) :
    ∀ u v : Str, (splitOnce pat (u ++ pat ++ v)).isSome = true := by
  intro u
  induction u with
  | nil =>
    intro v
    rw [List.nil_append]
    by_cases hp : pat = []
    · subst hp
      cases v with
      | nil => simp [splitOnce]
      | cons c cs => simp [splitOnce, List.isPrefixOf]
    · rw [splitOnce_self_append hp v]
      rfl
  | cons c u' ih =>
    intro v
    show (splitOnce pat (c :: (u' ++ pat ++ v))).isSome = true
    by_cases hpre : pat.isPrefixOf (c :: (u' ++ pat ++ v)) = true
    · rw [splitOnce, if_pos hpre]
      rfl
    · rw [splitOnce, if_neg hpre]
      have := ih v
      cases hx : splitOnce pat (u' ++ pat ++ v) with
      | none => rw [hx] at this; exact absurd this (by simp)
      | some p => rfl

theorem containsSub_iff (pat s : Str) : containsSub pat s = true ↔ pat <:+: s := by
  rw [containsSub]
  constructor
  · intro h
    rw [Option.isSome_iff_exists] at h
    rcases h with ⟨⟨a, b⟩, hab⟩
    exact ⟨a, b, (splitOnce_eq_concat hab).symm⟩
  · rintro ⟨u, v, huv⟩
    rw [← huv]
    exact splitOnce_isSome_infix pat u v

theorem not_infix_of_false {pat s : Str} (h : containsSub pat s = false) : ¬ pat <:+: s := by
  intro hc
  rw [← containsSub_iff] at hc
  rw [h] at hc
  exact absurd hc (by simp)

theorem infix_append_cases {M x y : Str} (h : M <:+: x ++ y) :
    M <:+: x ∨ M <:+: y ∨ ∃ a b, a ++ b = M ∧ a ≠ [] ∧ b ≠ [] ∧ a <:+ x ∧ b <+: y := by
  rcases h with ⟨s, t, hst⟩
  rw [List.append_assoc] at hst
  rcases List.append_eq_append_iff.mp hst with ⟨a1, hx1, hMt⟩ | ⟨c1, _, hy1⟩
  · rcases List.append_eq_append_iff.mp hMt with ⟨b1, ha1, _⟩ | ⟨d1, hM1, hy2⟩
    · left
      exact ⟨s, b1, by rw [List.append_assoc, ← ha1, ← hx1]⟩
    · by_cases ha1e : a1 = []
      · right; left
        subst ha1e
        rw [List.nil_append] at hM1
        subst hM1
        exact ⟨[], t, by rw [List.nil_append]; exact hy2.symm⟩
      · by_cases hd1e : d1 = []
        · left
          subst hd1e
          rw [List.append_nil] at hM1
          subst hM1
          exact ⟨s, [], by rw [List.append_nil]; exact hx1.symm⟩
        · right; right
          exact ⟨a1, d1, hM1.symm, ha1e, hd1e, ⟨s, hx1.symm⟩, ⟨t, hy2.symm⟩⟩
  · right; left
    exact ⟨c1, t, by rw [List.append_assoc]; exact hy1.symm⟩

theorem noSpan_of_noSpanB {L P : Str} (h : noSpanB L P = true) :
    ∀ a, a <:+ L → a <+: P → a = [] := by
  intro a hsuf hpre
  rw [noSpanB, List.all_eq_true] at h
  have := h a ((List.mem_tails _ _).mpr hsuf)
  rcases Bool.or_eq_true_iff.mp this with h1 | h1
  · exact List.isEmpty_iff.mp h1
  · exfalso
    rw [Bool.not_eq_eq_eq_not, Bool.not_true] at h1
    exact absurd (List.isPrefixOf_iff_prefix.mpr hpre) (by rw [h1]; simp)

theorem head?_of_isPrefix {b y : Str} (h : b <+: y) (hb : b ≠ []) : b.head? = y.head? := by
  rcases h with ⟨t, rfl⟩
  cases b with
  | nil => exact absurd rfl hb
  | cons c b' => rfl

theorem prefix_of_append_le {u v w : Str} (h : u <+: v ++ w) (hl : u.length ≤ v.length) :
    u <+: v := by
  rw [List.prefix_iff_eq_take] at h
  rw [List.take_append_eq_append_take, Nat.sub_eq_zero_of_le hl, List.take_zero,
    List.append_nil] at h
  rw [h]
  exact List.take_prefix _ _

theorem length_pos_of_ne_nil {sep : Str} (hsep : sep ≠ []) : 1 ≤ sep.length := by
  cases sep with
  | nil => exact absurd rfl hsep
  | cons a b => simp

theorem splitOnce_first {sep : Str} (hsep : sep ≠ []) :
    ∀ x rest : Str, ¬ sep <:+: (x ++ sep.dropLast) →
      splitOnce sep (x ++ (sep ++ rest)) = some (x, rest) := by
  intro x
  induction x with
  | nil =>
    intro rest _
    rw [List.nil_append, splitOnce_self_append hsep rest]
  | cons c x' ih =>
    intro rest hno
    have hno' : ¬ sep <:+: (x' ++ sep.dropLast) := fun hc => hno (List.infix_cons hc)
    have hnpre : ¬ sep.isPrefixOf (c :: (x' ++ (sep ++ rest))) = true := by
      intro hpre
      apply hno
      have hp : sep <+: (c :: x') ++ (sep ++ rest) :=
        List.isPrefixOf_iff_prefix.mp hpre
      have hbig : (c :: x') ++ (sep ++ rest) =
          ((c :: x') ++ sep.dropLast) ++ ([sep.getLast hsep] ++ rest) := by
        simp only [List.append_assoc]
        rw [← List.append_assoc sep.dropLast, List.dropLast_append_getLast hsep]
      rw [hbig] at hp
      have hlen : sep.length ≤ ((c :: x') ++ sep.dropLast).length := by
        rw [List.length_append, List.length_dropLast, List.length_cons]
        have := length_pos_of_ne_nil hsep
        omega
      exact (prefix_of_append_le hp hlen).isInfix
    show splitOnce sep (c :: (x' ++ (sep ++ rest))) = some (c :: x', rest)
    rw [splitOnce, if_neg hnpre, ih rest hno']
    rfl

theorem splitAllF_fuel_irrel {sep : Str} (hsep : sep ≠ []) :
    ∀ fuel1 fuel2 s, s.length < fuel1 → s.length < fuel2 →
      splitAllF sep fuel1 s = splitAllF sep fuel2 s := by
  intro fuel1
  induction fuel1 with
  | zero => intro fuel2 s h1; omega
  | succ f1 ih =>
    intro fuel2 s h1 h2
    cases fuel2 with
    | zero => omega
    | succ f2 =>
      cases hx : splitOnce sep s with
      | none => rw [splitAllF, splitAllF, hx]
      | some p =>
        rcases p with ⟨a, b⟩
        rw [splitAllF, splitAllF, hx]
        have hlt := splitOnce_length_lt hsep hx
        show a :: splitAllF sep f1 b = a :: splitAllF sep f2 b
        rw [ih f2 b (by omega) (by omega)]

theorem pySplit_nil {sep : Str} (hsep : sep ≠ []) : pySplit sep [] = [[]] := by
  rw [pySplit]
  have h0 : splitOnce sep [] = none := by
    rw [splitOnce, if_neg (by simpa [List.isEmpty_iff] using hsep)]
  rw [splitAllF, h0]

theorem pySplit_cons {sep : Str} (hsep : sep ≠ []) (x rest : Str)
    (hno : ¬ sep <:+: (x ++ sep.dropLast)) :
    pySplit sep (x ++ sep ++ rest) = x :: pySplit sep rest := by
  have hstep := splitOnce_first hsep x rest hno
  rw [pySplit]
  simp only [List.append_assoc]
  rw [splitAllF, hstep]
  show x :: splitAllF sep (x ++ (sep ++ rest)).length rest = x :: pySplit sep rest
  rw [pySplit,
    splitAllF_fuel_irrel hsep (x ++ (sep ++ rest)).length (rest.length + 1) rest
      (by rw [List.length_append, List.length_append]
          have := length_pos_of_ne_nil hsep
          omega)
      (by omega)]

theorem delim_suffix_nl :
    ∀ b, b <:+ delim → b.head? = some '\n' → b = lit "\n" ∨ b = lit "\n\n" := by
  have hall : ∀ b ∈ delim.tails, b.head? = some '\n' → b = lit "\n" ∨ b = lit "\n\n" := by
    decide
  exact fun b hb hh => hall b ((List.mem_tails _ _).mpr hb) hh

theorem noDelimTokens_spec {s : Str} (h : noDelimTokens s = true) :
    ¬ marker <:+: s ∧ ¬ pregLbl <:+: s ∧ ¬ respLbl <:+: s ∧ ¬ nnl <:+: s := by
  rw [noDelimTokens, Bool.and_eq_true, Bool.and_eq_true, Bool.and_eq_true] at h
  obtain ⟨⟨⟨h1, h2⟩, h3⟩, h4⟩ := h
  exact ⟨not_infix_of_false (by simpa using h1), not_infix_of_false (by simpa using h2),
    not_infix_of_false (by simpa using h3), not_infix_of_false (by simpa using h4)⟩

theorem contra_t_nl {t : Str} (ht : okTimestamp t = true) (h : '\n' ∈ t) : False := by
  rw [okTimestamp, Bool.and_eq_true, List.all_eq_true] at ht
  exact absurd (ht.1 _ h) (by decide)

theorem span_b_cases {a b : Str} (hab : a ++ b = delim) (_ : b ≠ [])
    (hh : b.head? = some '\n') :
    (a = marker ++ lit "\n" ∧ b = lit "\n") ∨ (a = marker ∧ b = lit "\n\n") := by
  have hsuf : b <:+ delim := hab ▸ List.suffix_append a b
  rcases delim_suffix_nl b hsuf hh with h1 | h1
  · left
    refine ⟨?_, h1⟩
    subst h1
    have hde : delim = (marker ++ lit "\n") ++ lit "\n" := by decide
    exact List.append_cancel_right (hab.trans hde)
  · right
    refine ⟨?_, h1⟩
    subst h1
    exact List.append_cancel_right (hab.trans rfl)

theorem marker_infix_of_span {a s : Str}
    (ha : a = marker ++ lit "\n" ∨ a = marker) (hsuf : a <:+ s) : marker <:+: s := by
  rcases ha with h | h
  · subst h
    exact (List.prefix_append marker (lit "\n")).isInfix.trans hsuf.isInfix
  · subst h
    exact hsuf.isInfix

theorem no_delim_entryBody (e : ConvEntry) (hq : okQuery e.query = true)
    (hr : okResponse e.response = true) (ht : okTimestamp e.timestamp = true) :
    ¬ delim <:+: (entryBody e ++ delim.dropLast) := by
  have hA4 : lit "\n" ++ delim.dropLast = lit "\n--- Fin de respuesta ---\n" := by decide
  have hz : entryBody e ++ delim.dropLast =
      lit "Timestamp: " ++ (e.timestamp ++ (lit "\nPregunta: " ++ (e.query ++
        (lit "\n\nRespuesta: " ++ (e.response ++ lit "\n--- Fin de respuesta ---\n"))))) := by
    rw [entryBody]
    simp only [List.append_assoc]
    rw [hA4]
  rw [okQuery, Bool.and_eq_true] at hq
  rw [okResponse, Bool.and_eq_true] at hr
  obtain ⟨hqm, -, -, hqn⟩ := noDelimTokens_spec hq.1
  obtain ⟨hrm, -, -, hrn⟩ := noDelimTokens_spec hr.1
  intro hD
  rw [hz] at hD
  rcases infix_append_cases hD with h | h | ⟨a, b, hab, ha, hb, hsuf, hpre⟩
  · exact absurd h.length_le (by decide)
  · rcases infix_append_cases h with h2 | h2 | ⟨a, b, hab, ha, hb, hsuf, hpre⟩
    · exact contra_t_nl ht (h2.subset (by decide))
    · rcases infix_append_cases h2 with h3 | h3 | ⟨a, b, hab, ha, hb, hsuf, hpre⟩
      · exact absurd h3.length_le (by decide)
      · rcases infix_append_cases h3 with h4 | h4 | ⟨a, b, hab, ha, hb, hsuf, hpre⟩
        · exact hqm ((show marker <:+: delim from by decide).trans h4)
        · rcases infix_append_cases h4 with h5 | h5 | ⟨a, b, hab, ha, hb, hsuf, hpre⟩
          · exact absurd h5.length_le (by decide)
          · rcases infix_append_cases h5 with h6 | h6 | ⟨a, b, hab, ha, hb, hsuf, hpre⟩
            · exact hrm ((show marker <:+: delim from by decide).trans h6)
            · exact absurd h6 (by decide)
            · have hbh : b.head? = some '\n' := by
                rw [head?_of_isPrefix hpre hb]
                rfl
              rcases span_b_cases hab hb hbh with ⟨ha2, -⟩ | ⟨ha2, hb2⟩
              · exact hrm (marker_infix_of_span (Or.inl ha2) hsuf)
              · subst hb2
                exact absurd hpre (by decide)
          · have ha' : a <+: delim := hab ▸ List.prefix_append a b
            exact ha (noSpan_of_noSpanB (by decide) a hsuf ha')
        · have hbh : b.head? = some '\n' := by
            rw [head?_of_isPrefix hpre hb]
            rfl
          rcases span_b_cases hab hb hbh with ⟨ha2, -⟩ | ⟨ha2, hb2⟩
          · exact hqm (marker_infix_of_span (Or.inl ha2) hsuf)
          · exact hqm (marker_infix_of_span (Or.inr ha2) hsuf)
      · have ha' : a <+: delim := hab ▸ List.prefix_append a b
        exact ha (noSpan_of_noSpanB (by decide) a hsuf ha')
    · have hbh : b.head? = some '\n' := by
        rw [head?_of_isPrefix hpre hb]
        rfl
      rcases span_b_cases hab hb hbh with ⟨ha2, -⟩ | ⟨ha2, hb2⟩
      · exact contra_t_nl ht (hsuf.subset (by rw [ha2]; decide))
      · subst hb2
        exact absurd (prefix_of_append_le hpre (by decide)) (by decide)
  · have ha' : a <+: delim := hab ▸ List.prefix_append a b
    exact ha (noSpan_of_noSpanB (by decide) a hsuf ha')

theorem nl_mem_of_head {b : Str} (h : b.head? = some '\n') : '\n' ∈ b := by
  cases b with
  | nil => simp at h
  | cons c cs =>
    rw [List.head?_cons, Option.some.injEq] at h
    rw [h]
    exact List.mem_cons_self _ _

theorem okTimestamp_spec {t : Str} (ht : okTimestamp t = true) :
    (∀ c ∈ t, c ≠ '\n') ∧ ¬ pregLbl <:+: t := by
  rw [okTimestamp, Bool.and_eq_true, List.all_eq_true] at ht
  constructor
  · intro c hc
    have := ht.1 c hc
    simpa using this
  · exact not_infix_of_false (by simpa using ht.2)

theorem no_pregLbl_before (t : Str) (ht : okTimestamp t = true) :
    ¬ pregLbl <:+: ((lit "Timestamp: " ++ t ++ lit "\n") ++ pregLbl.dropLast) := by
  obtain ⟨htn, htp⟩ := okTimestamp_spec ht
  have hshape : (lit "Timestamp: " ++ t ++ lit "\n") ++ pregLbl.dropLast =
      lit "Timestamp: " ++ (t ++ lit "\nPregunta:") := by
    have hnp : lit "\n" ++ pregLbl.dropLast = lit "\nPregunta:" := by decide
    simp only [List.append_assoc]
    rw [hnp]
  rw [hshape]
  intro hc
  rcases infix_append_cases hc with h | h | ⟨a, b, hab, ha, hb, hsuf, hpre⟩
  · exact absurd h (by decide)
  · rcases infix_append_cases h with h2 | h2 | ⟨a, b, hab, ha, hb, hsuf, hpre⟩
    · exact htp h2
    · exact absurd h2 (by decide)
    · have hbh : b.head? = some '\n' := by
        rw [head?_of_isPrefix hpre hb]
        rfl
      have hnlp : '\n' ∈ pregLbl := by
        have hbsuf : b <:+ pregLbl := hab ▸ List.suffix_append a b
        exact hbsuf.subset (nl_mem_of_head hbh)
      exact absurd hnlp (by decide)
  · have ha' : a <+: pregLbl := hab ▸ List.prefix_append a b
    exact ha (noSpan_of_noSpanB (by decide) a hsuf ha')

theorem suffix_singleton_getLast {q : Str} {c : Char} (h : [c] <:+ q) :
    q.getLast? = some c := by
  rcases h with ⟨u, rfl⟩
  exact List.getLast?_concat u

theorem no_nnl_before {q : Str} (hqn : ¬ nnl <:+: q)
    (hlast : (q.getLast? != some '\n') = true) : ¬ nnl <:+: (q ++ nnl.dropLast) := by
  have hd : nnl.dropLast = lit "\n" := by decide
  rw [hd]
  intro hc
  rcases infix_append_cases hc with h | h | ⟨a, b, hab, ha, hb, hsuf, hpre⟩
  · exact hqn h
  · exact absurd h.length_le (by decide)
  · have hbeq : b = lit "\n" := by
      rcases hpre with ⟨u, hu⟩
      cases b with
      | nil => exact absurd rfl hb
      | cons c cs =>
        cases cs with
        | nil =>
          rw [show (lit "\n") = ['\n'] from rfl] at hu ⊢
          simp only [List.cons_append, List.nil_append, List.cons.injEq] at hu
          rw [hu.1]
        | cons d ds =>
          exfalso
          have : (c :: d :: ds ++ u).length = 1 := by rw [hu]; rfl
          simp [List.length_append] at this
    have haeq : a = lit "\n" := by
      subst hbeq
      have : nnl = lit "\n" ++ lit "\n" := by decide
      exact List.append_cancel_right (hab.trans this)
    have : q.getLast? = some '\n' := by
      apply suffix_singleton_getLast
      rw [show ['\n'] = lit "\n" from rfl, ← haeq]
      exact hsuf
    rw [this] at hlast
    exact absurd hlast (by decide)

theorem stripR_append_sp {x : Str} {c : Char} (hc : isSp c = true) :
    stripR (x ++ [c]) = stripR x := by
  rw [stripR, stripR, List.reverse_append]
  simp [List.dropWhile_cons, hc]

theorem pyStrip_append_nl {r : Str} (h : pyStrip r = r) : pyStrip (r ++ lit "\n") = r := by
  by_cases he : stripL r = []
  · have hr : r = [] := by
      rw [pyStrip, he] at h
      exact h.symm ▸ rfl
    subst hr
    decide
  · rw [pyStrip, show (lit "\n") = ['\n'] from rfl]
    have hsl : stripL (r ++ ['\n']) = stripL r ++ ['\n'] := by
      rw [stripL, List.dropWhile_append]
      have hne : (List.dropWhile isSp r).isEmpty = false := by
        cases hx : List.dropWhile isSp r with
        | nil => exact absurd hx he
        | cons d ds => rfl
      simp [hne]
      rfl
    rw [hsl, stripR_append_sp (by decide)]
    exact h

theorem pyStrip_ne_nil {l : Str} {c : Char} (hc : isSp c = false) (hl : l.head? = some c) :
    pyStrip l ≠ [] := by
  cases l with
  | nil => simp at hl
  | cons d rest =>
    rw [List.head?_cons, Option.some.injEq] at hl
    rw [← hl] at hc
    rw [pyStrip, stripL, List.dropWhile_cons, hc]
    simp only [Bool.false_eq_true, if_false]
    intro hcon
    rw [stripR] at hcon
    have hnil : (d :: rest).reverse.dropWhile isSp = [] := by
      have := congrArg List.reverse hcon
      simpa using this
    rw [List.dropWhile_eq_nil_iff] at hnil
    have hmem : d ∈ (d :: rest).reverse := by
      rw [List.mem_reverse]
      exact List.mem_cons_self _ _
    rw [hnil d hmem] at hc
    exact absurd hc (by simp)

theorem parse_entryBody (e : ConvEntry) (hq : okQuery e.query = true)
    (_ : okResponse e.response = true) (ht : okTimestamp e.timestamp = true)
    (hstrip : pyStrip e.response = e.response) :
    parse_conversation_entry (entryBody e) =
      some ⟨e.query, e.response, lit "Imported"⟩ := by
  rw [okQuery, Bool.and_eq_true] at hq
  obtain ⟨-, -, -, hqn⟩ := noDelimTokens_spec hq.1
  have hsplit1 : entryBody e = (lit "Timestamp: " ++ e.timestamp ++ lit "\n") ++
      (pregLbl ++ (e.query ++ (nnl ++ (respLbl ++ (e.response ++ lit "\n"))))) := by
    have hP : lit "\nPregunta: " = lit "\n" ++ pregLbl := by decide
    have hR : lit "\n\nRespuesta: " = nnl ++ respLbl := by decide
    rw [entryBody, hP, hR]
    simp only [List.append_assoc]
  have hhead : (entryBody e).head? = some 'T' := by
    rw [entryBody]
    rfl
  have h1 : splitOnce pregLbl (entryBody e) =
      some (lit "Timestamp: " ++ e.timestamp ++ lit "\n",
        e.query ++ (nnl ++ (respLbl ++ (e.response ++ lit "\n")))) := by
    rw [hsplit1]
    exact splitOnce_first (by decide) _ _ (no_pregLbl_before e.timestamp ht)
  have h2 : splitOnce nnl (e.query ++ (nnl ++ (respLbl ++ (e.response ++ lit "\n")))) =
      some (e.query, respLbl ++ (e.response ++ lit "\n")) :=
    splitOnce_first (by decide) _ _ (no_nnl_before hqn hq.2)
  have h3 : splitOnce respLbl (respLbl ++ (e.response ++ lit "\n")) =
      some ([], e.response ++ lit "\n") :=
    splitOnce_self_append (by decide) _
  rw [parse_conversation_entry, if_neg (pyStrip_ne_nil (by decide) hhead)]
  simp only [h1, h2, h3]
  rw [pyStrip_append_nl hstrip]

theorem parse_nil_entry : parse_conversation_entry [] = none := rfl

theorem renderEntry_eq (e : ConvEntry) : renderEntry e = entryBody e ++ delim := by
  rw [renderEntry, entryBody]

theorem pySplit_save (h : List ConvEntry)
    (hok : ∀ e ∈ h, okQuery e.query = true ∧ okResponse e.response = true ∧
      okTimestamp e.timestamp = true) :
    pySplit delim ((h.map renderEntry).flatten) = h.map entryBody ++ [[]] := by
  induction h with
  | nil =>
    simp only [List.map_nil, List.flatten_nil]
    rw [pySplit_nil (by decide)]
    rfl
  | cons e h' ih =>
    obtain ⟨hq, hr, ht⟩ := hok e (by simp)
    have hrest := ih (fun x hx => hok x (by simp [hx]))
    simp only [List.map_cons, List.flatten_cons]
    rw [renderEntry_eq, List.append_assoc, ← List.append_assoc (entryBody e)]
    rw [pySplit_cons (by decide) _ _ (no_delim_entryBody e hq hr ht), hrest]
    rfl

theorem okResponse_strip {r : Str} (hr : okResponse r = true) : pyStrip r = r := by
  rw [okResponse, Bool.and_eq_true] at hr
  exact eq_of_beq hr.2

theorem load_fold (h : List ConvEntry)
    (hdist : List.Pairwise (fun a b => a.query ≠ b.query) h)
    (hok : ∀ e ∈ h, okQuery e.query = true ∧ okResponse e.response = true ∧
      okTimestamp e.timestamp = true) :
    ∀ acc : List ConvEntry, (∀ x ∈ acc, ∀ e ∈ h, x.query ≠ e.query) →
      (h.map entryBody ++ [[]]).foldl
        (fun hist ent =>
          match parse_conversation_entry ent with
          | none => hist
          | some e2 => add_unique_entry_to_history hist e2) acc =
      acc ++ h.map (fun e => ⟨e.query, e.response, lit "Imported"⟩) := by
  induction h with
  | nil =>
    intro acc _
    simp only [List.map_nil, List.nil_append, List.foldl_cons, List.foldl_nil,
      parse_nil_entry, List.append_nil]
  | cons e h' ih =>
    intro acc hacc
    obtain ⟨hq, hr, ht⟩ := hok e (by simp)
    have hparse := parse_entryBody e hq hr ht (okResponse_strip hr)
    simp only [List.map_cons, List.cons_append, List.foldl_cons, hparse]
    have hnew : add_unique_entry_to_history acc ⟨e.query, e.response, lit "Imported"⟩ =
        acc ++ [⟨e.query, e.response, lit "Imported"⟩] := by
      rw [add_unique_entry_to_history, if_neg]
      intro hany
      rw [List.any_eq_true] at hany
      rcases hany with ⟨x, hx, hxe⟩
      exact hacc x hx e (by simp) (eq_of_beq hxe)
    rw [hnew]
    have hcond : ∀ x ∈ acc ++ [(⟨e.query, e.response, lit "Imported"⟩ : ConvEntry)],
        ∀ e' ∈ h', x.query ≠ e'.query := by
      intro x hx e' he'
      rw [List.mem_append] at hx
      rcases hx with hx | hx
      · exact hacc x hx e' (by simp [he'])
      · rw [List.mem_singleton] at hx
        subst hx
        exact (List.pairwise_cons.mp hdist).1 e' he'
    rw [ih (List.pairwise_cons.mp hdist).2 (fun x hx => hok x (by simp [hx])) _ hcond]
    simp [List.append_assoc]

theorem save_on_empty (h : List ConvEntry) :
    save_conversation_history h [] = (h.map renderEntry).flatten := by
  rw [save_conversation_history]
  have h0 : pyCount marker [] = 0 := rfl
  rw [h0, List.drop_zero, List.nil_append]

/-- C5 amended: writing N turns to an empty log and reloading reproduces the
turns exactly (as query/response pairs, in order), provided the queries are
pairwise distinct, no query or response contains a delimiter token (the
sentinel, either field label, or a double newline), no query ends in a
newline (the writer's blank line would then move the field boundary), each
response equals its own strip (the loader strips the response field), and
timestamps are newline-free and do not contain the query label (true of every
timestamp the code writes). -/
theorem claim_C5_roundtrip (h : List ConvEntry)
    (hdist : List.Pairwise (fun a b => a.query ≠ b.query) h)
    (hok : ∀ e ∈ h, okQuery e.query = true ∧ okResponse e.response = true ∧
      okTimestamp e.timestamp = true) :
    load_single_conversation_history (save_conversation_history h []) =
      h.map (fun e => ⟨e.query, e.response, lit "Imported"⟩) ∧
    (load_single_conversation_history (save_conversation_history h [])).map
        (fun e => (e.query, e.response)) =
      h.map (fun e => (e.query, e.response)) := by
  have hmain : load_single_conversation_history (save_conversation_history h []) =
      h.map (fun e => ⟨e.query, e.response, lit "Imported"⟩) := by
    rw [save_on_empty, load_single_conversation_history, pySplit_save h hok]
    rw [load_fold h hdist hok [] (by simp)]
    rfl
  refine ⟨hmain, ?_⟩
  rw [hmain, List.map_map]
  rfl

/-- C5 counterexample: a turn whose response carries leading whitespace does
not round-trip — the loader strips the response.  The response `" b"`
contains no delimiter token and the single query is trivially unique, yet
reloading yields `"b"`. -/
theorem claim_C5_counterexample :
    (load_single_conversation_history
        (save_conversation_history [⟨lit "a", lit " b", lit "N/A"⟩] [])).map
      (fun e => (e.query, e.response)) ≠ [(lit "a", lit " b")] := by decide

/-- Witness for C5 amended at a concrete one-turn history. -/
theorem claim_C5_witness :
    load_single_conversation_history
        (save_conversation_history [⟨lit "a", lit "b", lit "N/A"⟩] []) =
      [⟨lit "a", lit "b", lit "Imported"⟩] :=
  (claim_C5_roundtrip [⟨lit "a", lit "b", lit "N/A"⟩] (by simp) (by decide)).1
